import Mathlib

/-!
Verification of the payment-guide converter (PDF tax-guide extraction and
PS2 / SEPA encoders).  JavaScript strings are modelled as lists of
characters and JavaScript numbers as exact rationals; the definitions
below are shallow embeddings of the functions in
src/main/ps2Generator.ts, src/main/sepaGenerator.ts and the
parse-pdf-file IPC handler of the main process.
-/

/-- JavaScript strings are modelled as lists of characters. -/
abbrev Str := List Char

/-- The JavaScript regex class \s (whitespace), restricted to the
whitespace characters that can occur here. -/
def jsIsWs (c : Char) : Bool :=
  c == ' ' || c == '\t' || c == '\n' || c == '\r' ||
  c == (Char.ofNat 11) || c == (Char.ofNat 12) || c == (Char.ofNat 160) ||
  c == (Char.ofNat 0x2028) || c == (Char.ofNat 0x2029) || c == (Char.ofNat 0xFEFF)

/-- JavaScript regex class \w: ASCII letters, digits and underscore. -/
def jsIsWord (c : Char) : Bool :=
  c.isDigit || c.isAlpha || c == '_'

/-- Unicode simple lower-casing for the characters appearing in the
patterns of the extractor (ASCII plus the accented letters used in the
Portuguese labels); models the /i regex flag. -/
def jsLower (c : Char) : Char :=
  if c.isUpper then Char.ofNat (c.toNat + 32)
  else if c == 'Ú' then 'ú'
  else if c == 'Ç' then 'ç'
  else if c == 'Ã' then 'ã'
  else if c == 'Â' then 'â'
  else if c == 'Ó' then 'ó'
  else if c == 'Ê' then 'ê'
  else if c == 'É' then 'é'
  else if c == 'Í' then 'í'
  else if c == 'À' then 'à'
  else c

/-- String.prototype.padStart: left-pad with `c` up to length `n`. -/
def jsPadStart (s : Str) (n : Nat) (c : Char) : Str :=
  List.replicate (n - s.length) c ++ s

/-- Math.round: round half toward positive infinity. -/
def jsRound (q : ℚ) : ℤ := ⌊q + 1/2⌋

/-- Decimal rendering, fuel-based so that the kernel can evaluate it;
the fuel bounds the number of digits. -/
def jsNatToStringAux : Nat → Nat → Str
  | 0, _ => []
  | fuel + 1, n =>
    if n < 10 then [Nat.digitChar n]
    else jsNatToStringAux fuel (n / 10) ++ [Nat.digitChar (n % 10)]

/-- Decimal rendering of a natural number, as JavaScript String(n). -/
def jsNatToString (n : Nat) : Str := jsNatToStringAux (n + 1) n

/-- Decimal rendering of an integer, as JavaScript String(i). -/
def jsIntToString (i : ℤ) : Str :=
  if i < 0 then '-' :: jsNatToString i.natAbs else jsNatToString i.toNat

/-- Numeric value of a digit character. -/
def digitVal (c : Char) : Nat := c.toNat - 48

/-- Value of a string of decimal digits. -/
def strNatVal (s : Str) : Nat := s.foldl (fun a c => 10 * a + digitVal c) 0

/-- Parse a non-empty all-digit string as a natural number. -/
def strToNat? (s : Str) : Option Nat :=
  if !s.isEmpty && s.all Char.isDigit then some (strNatVal s) else none

/-- A calendar date as read off a JavaScript Date (month already 1-based,
as the generator computes getMonth() + 1). -/
structure JsDate where
  year : Nat
  month : Nat
  day : Nat
  deriving DecidableEq

/-- PaymentData from src/shared/types.ts (the fields consumed by the
generators; amounts are exact rationals standing for the decimal euro
amounts). -/
structure PaymentData where
  documentNumber : Str := []
  nif : Str := []
  taxpayerName : Str := []
  paymentReference : Str := []
  entity : Str := []
  amount : ℚ := 0
  dueDate : Str := []
  taxCode : Str := []
  period : Str := []
  deriving DecidableEq

/-- PS2Config from src/main/ps2Generator.ts. -/
structure PS2Config where
  debtorName : Option Str := none
  debtorNIF : Option Str := none
  debtorNIB : Option Str := none
  executionDate : Option JsDate := none
  deriving DecidableEq

/-- formatDate of generatePS2: YYYYMMDD with the year unpadded and
month/day padded to two digits. -/
def formatDate (d : JsDate) : Str :=
  jsNatToString d.year ++ jsPadStart (jsNatToString d.month) 2 '0' ++
    jsPadStart (jsNatToString d.day) 2 '0'

/-- formatNIB of generatePS2: a missing or empty NIB becomes 21 zeros;
otherwise whitespace is stripped, overlong inputs keep their last 21
characters and short ones are left-padded with zeros to 21. -/
def formatNIB (nib : Option Str) : Str :=
  match nib with
  | none => List.replicate 21 '0'
  | some s =>
    if s.isEmpty then List.replicate 21 '0'
    else
      let cleanNIB := s.filter (fun c => !(jsIsWs c))
      if 21 < cleanNIB.length then cleanNIB.drop (cleanNIB.length - 21)
      else jsPadStart cleanNIB 21 '0'

/-- formatAmount of generatePS2: Math.round(amount * 100) rendered in
decimal and left-padded with zeros to 13 characters. -/
def formatAmount (amount : ℚ) : Str :=
  jsPadStart (jsIntToString (jsRound (amount * 100))) 13 '0'

/-- formatOrderingReference of generatePS2: the digits of the NIF,
truncated to 9, right-aligned in 20 characters padded with spaces. -/
def formatOrderingReference (nif : Str) : Str :=
  jsPadStart ((nif.filter Char.isDigit).take 9) 20 ' '

/-- formatTransferReference of generatePS2: strip whitespace, dots and
hyphens, keep the first 14 characters zero-padded to 14, and append the
constant suffix 3. -/
def formatTransferReference (reference : Str) : Str :=
  let cleanRef := reference.filter (fun c => !(jsIsWs c || c == '.' || c == '-'))
  jsPadStart (cleanRef.take 14) 14 '0' ++ ['3']

/-- The PS21 header record built by generatePS2 (80 bytes when the date
fields are in range): constants, the ordering NIB, currency, processing
date, a 20-space ordering reference and 19 zeros of filler. -/
def ps2Header (config : PS2Config) (now : JsDate) : Str :=
  ("PS2").data ++ ("1").data ++ ("47").data ++ ("00").data ++ ("0").data ++
  formatNIB config.debtorNIB ++ ("EUR").data ++
  formatDate (config.executionDate.getD now) ++
  List.replicate 20 ' ' ++ List.replicate 19 '0'

/-- The PS22 detail record built by generatePS2 for one payment. -/
def ps2Detail (payment : PaymentData) : Str :=
  ("PS2").data ++ ("2").data ++ ("47").data ++ ("00").data ++ ("0").data ++
  List.replicate 21 '0' ++ formatAmount payment.amount ++
  formatOrderingReference payment.nif ++
  formatTransferReference payment.paymentReference ++ ("00").data

/-- The batch total of generatePS2: Math.round of 100 times the sum of
the amounts (the detail amounts are rounded individually instead). -/
def ps2TotalCents (payments : List PaymentData) : ℤ :=
  jsRound ((payments.map (fun p => p.amount)).sum * 100)

/-- The cents encoded in one detail record. -/
def paymentCents (p : PaymentData) : ℤ := jsRound (p.amount * 100)

/-- The PS29 footer record built by generatePS2: constants, 6 zeros, the
detail-record count padded to 14, the total cents padded to 13, and 38
zeros. -/
def ps2Footer (payments : List PaymentData) : Str :=
  ("PS2").data ++ ("9").data ++ ("47").data ++ ("00").data ++ ("0").data ++
  List.replicate 6 '0' ++
  jsPadStart (jsNatToString payments.length) 14 '0' ++
  jsPadStart (jsIntToString (ps2TotalCents payments)) 13 '0' ++
  List.replicate 38 '0'

/-- The list of records produced by generatePS2, in order. -/
def ps2Lines (payments : List PaymentData) (config : PS2Config) (now : JsDate) :
    List Str :=
  ps2Header config now :: (payments.map ps2Detail ++ [ps2Footer payments])

/-- generatePS2 of src/main/ps2Generator.ts: the records joined with
newlines. -/
def generatePS2 (payments : List PaymentData) (config : PS2Config) (now : JsDate) :
    Str :=
  List.intercalate ['\n'] (ps2Lines payments config now)

/-- Re-parse the fixed footer fields: the transaction count at positions
16-29 and the total cents at positions 30-42 (1-based). -/
def ps2ParseFooter (line : Str) : Option (Nat × Nat) :=
  match strToNat? ((line.drop 15).take 14), strToNat? ((line.drop 29).take 13) with
  | some c, some t => some (c, t)
  | _, _ => none

/-- SepaConfig of src/main/sepaGenerator.ts. -/
structure SepaConfig where
  debtorName : Str
  debtorIBAN : Str
  debtorBIC : Option Str := none
  deriving DecidableEq

/-- The defaultConfig of sepaGenerator.ts. -/
def defaultSepaConfig : SepaConfig :=
  { debtorName := ("EMPRESA EXEMPLO LDA").data
    debtorIBAN := ("PT50000000000000000000000").data
    debtorBIC := some (("BBPIPTPLXXX").data) }

/-- One CdtTrfTxInf entry of the SEPA document. -/
structure SepaTx where
  instrId : Str
  endToEndId : Str
  instdAmtCcy : Str
  instdAmt : Str
  cdtrAgtBIC : Str
  cdtrNm : Str
  cdtrIBAN : Str
  refCd : Str
  refIssr : Str
  ref : Str
  addtlRmtInf : Str
  deriving DecidableEq

/-- The GrpHdr block of the SEPA document. -/
structure SepaGrpHdr where
  msgId : Str
  creDtTm : Str
  nbOfTxs : Str
  ctrlSum : Str
  initgPtyNm : Str
  deriving DecidableEq

/-- The PmtInf block of the SEPA document. -/
structure SepaPmtInf where
  pmtInfId : Str
  pmtMtd : Str
  btchBookg : Str
  nbOfTxs : Str
  ctrlSum : Str
  svcLvlCd : Str
  reqdExctnDt : Str
  dbtrNm : Str
  dbtrIBAN : Str
  dbtrBIC : Option Str
  chrgBr : Str
  cdtTrfTxInf : List SepaTx
  deriving DecidableEq

/-- The CstmrCdtTrfInitn document built by generateSepaXml (before the
xml-js serialization, which is an external library call). -/
structure SepaDoc where
  grpHdr : SepaGrpHdr
  pmtInf : SepaPmtInf
  deriving DecidableEq

/-- Number.prototype.toFixed(2) for a non-negative decimal: the integer
nearest to 100 q (ties upward), rendered with two decimals. -/
def jsToFixed2Pos (q : ℚ) : Str :=
  let n := (⌊q * 100 + 1/2⌋).toNat
  jsNatToString (n / 100) ++ ('.' :: jsPadStart (jsNatToString (n % 100)) 2 '0')

/-- Number.prototype.toFixed(2). -/
def jsToFixed2 (q : ℚ) : Str :=
  if q < 0 then '-' :: jsToFixed2Pos (-q) else jsToFixed2Pos q

/-- The AddtlRmtInf line of one transaction: the always-present NIF,
entity and document parts plus the optional period, joined with the
fixed separator. -/
def addtlRmtInfOf (p : PaymentData) : Str :=
  List.intercalate ((" | ").data)
    (([some ((("NIF: ").data) ++ p.nif),
       some ((("Entidade: ").data) ++ p.entity),
       some ((("Documento: ").data) ++ p.documentNumber),
       if p.period.isEmpty then none else some ((("Periodo: ").data) ++ p.period)]).filterMap id)

/-- The CdtTrfTxInf entry for payment `p` at zero-based index `i`. -/
def sepaTxOf (i : Nat) (p : PaymentData) : SepaTx :=
  { instrId := (("TXN-").data) ++ jsNatToString (i + 1)
    endToEndId :=
      if p.paymentReference.isEmpty then (("E2E-").data) ++ jsNatToString (i + 1)
      else p.paymentReference
    instdAmtCcy := ("EUR").data
    instdAmt := jsToFixed2 p.amount
    cdtrAgtBIC := ("BBPIPTPLXXX").data
    cdtrNm := ("AUTORIDADE TRIBUTARIA E ADUANEIRA").data
    cdtrIBAN := ("PT50003506514963985101172").data
    refCd := ("SCOR").data
    refIssr := ("PT:AT").data
    ref := p.paymentReference
    addtlRmtInf := addtlRmtInfOf p }

/-- The control sum of generateSepaXml: the arithmetic sum of the
amounts. -/
def sepaControlSum (payments : List PaymentData) : ℚ :=
  (payments.map (fun p => p.amount)).sum

/-- generateSepaXml of src/main/sepaGenerator.ts, modelled at the level
of the document object handed to the xml-js serializer; `nowMs` is
Date.now() in milliseconds and `nowIso` the ISO timestamp string. -/
def generateSepaDoc (payments : List PaymentData) (config : SepaConfig)
    (nowMs : ℤ) (nowIso : Str) : SepaDoc :=
  let msgId := (("MSG-").data) ++ jsIntToString nowMs
  let pmtInfId := (("PMT-").data) ++ jsIntToString nowMs
  let controlSum := sepaControlSum payments
  let numberOfTransactions := payments.length
  { grpHdr :=
    { msgId := msgId
      creDtTm := nowIso
      nbOfTxs := jsNatToString numberOfTransactions
      ctrlSum := jsToFixed2 controlSum
      initgPtyNm := config.debtorName }
    pmtInf :=
    { pmtInfId := pmtInfId
      pmtMtd := ("TRF").data
      btchBookg := ("true").data
      nbOfTxs := jsNatToString numberOfTransactions
      ctrlSum := jsToFixed2 controlSum
      svcLvlCd := ("SEPA").data
      reqdExctnDt := nowIso.takeWhile (fun c => !(c == 'T'))
      dbtrNm := config.debtorName
      dbtrIBAN := config.debtorIBAN
      dbtrBIC := config.debtorBIC
      chrgBr := ("SLEV").data
      cdtTrfTxInf := payments.enum.map (fun x => sepaTxOf x.1 x.2) } }

/-- True at the start of a match of \b followed by a word character:
the previous character is absent or not a word character. -/
def atBoundary (prev : Option Char) : Bool :=
  match prev with
  | none => true
  | some c => !(jsIsWord c)

/-- \b after a word character: the next character is absent or not a
word character. -/
def boundaryAfter (s : Str) : Bool :=
  match s with
  | [] => true
  | c :: _ => !(jsIsWord c)

/-- The negative lookahead (?!\d). -/
def notDigitAhead (s : Str) : Bool :=
  match s with
  | [] => true
  | c :: _ => !(c.isDigit)

/-- Take exactly `n` leading decimal digits, returning them and the
rest. -/
def takeDigitsN : Nat → Str → Option (Str × Str)
  | 0, s => some ([], s)
  | _ + 1, [] => none
  | n + 1, c :: t =>
    if c.isDigit then
      match takeDigitsN n t with
      | some (d, r) => some (c :: d, r)
      | none => none
    else none

/-- Match one character of the class `p`. -/
def classChar (p : Char → Bool) : Str → Option (Char × Str)
  | [] => none
  | c :: t => if p c then some (c, t) else none

/-- The regex \s* : skip all leading whitespace. -/
def skipWs (s : Str) : Str := s.dropWhile jsIsWs

/-- The regex \s+ : at least one whitespace character, consumed
greedily (the following atoms here never match whitespace, so the
greedy parse is the only one). -/
def wsPlus (s : Str) : Option Str :=
  match s with
  | [] => none
  | c :: t => if jsIsWs c then some (skipWs t) else none

/-- Case-insensitive literal: `l` is given lower-case and compared
against the lower-casing of the input. -/
def litCI : Str → Str → Option Str
  | [], s => some s
  | _ :: _, [] => none
  | l :: lt, c :: ct => if jsLower c == l then litCI lt ct else none

/-- Case-sensitive literal. -/
def litEx : Str → Str → Option Str
  | [], s => some s
  | _ :: _, [] => none
  | l :: lt, c :: ct => if c == l then litEx lt ct else none

/-- Leftmost match: try the matcher at every start position, in order
(String.prototype.match with a non-global regex). -/
def scanA {α : Type} (f : Str → Option α) : Str → Option α
  | [] => f []
  | c :: t =>
    match f (c :: t) with
    | some a => some a
    | none => scanA f t

/-- Leftmost match for matchers that inspect the preceding character
(for word boundaries). -/
def scanB {α : Type} (f : Option Char → Str → Option α) :
    Option Char → Str → Option α
  | prev, [] => f prev []
  | prev, c :: t =>
    match f prev (c :: t) with
    | some a => some a
    | none => scanB f (some c) t

/-- \b(\d{9})\b(?!\d) at one position. -/
def matchNineAt (prev : Option Char) (s : Str) : Option Str :=
  if atBoundary prev then
    match takeDigitsN 9 s with
    | some (d, r) => if boundaryAfter r && notDigitAhead r then some d else none
    | none => none
  else none

/-- nifPattern1: the labelled header followed lazily by a standalone
nine-digit run (the label ends in a word character, so the boundary
check after the label sees a word character). -/
def nifPattern1 (text : Str) : Option Str :=
  scanA (fun s => do
    let r ← litCI (("número de identificação fiscal").data) s
    scanB matchNineAt (some 'l') r) text

/-- nifPattern2: NIF\s*:?\s*(\d{9})\b, case-insensitively. -/
def nifPattern2 (text : Str) : Option Str :=
  scanA (fun s => do
    let r1 ← litCI (("nif").data) s
    let r2 := skipWs r1
    let r3 := if r2.head? == some ':' then skipWs r2.tail else r2
    match takeDigitsN 9 r3 with
    | some (d, r4) => if boundaryAfter r4 then some d else none
    | none => none) text

/-- All matches of /\b(\d{9})\b(?!\d)/g, scanning left to right and
resuming after each match as the global regex does; fuel-based (each
step consumes at least one character) so that the kernel can evaluate
it. -/
def findAllNineAux : Nat → Option Char → Str → List Str
  | 0, _, _ => []
  | fuel + 1, prev, s =>
    match s with
    | [] => []
    | c :: t =>
      match matchNineAt prev (c :: t) with
      | some d => d :: findAllNineAux fuel (some (d.getLastD '9')) ((c :: t).drop 9)
      | none => findAllNineAux fuel (some c) t

/-- All matches of /\b(\d{9})\b(?!\d)/g over the whole text. -/
def findAllNine (text : Str) : List Str := findAllNineAux text.length none text

/-- The standalone re-test the handler performs on each nine-digit
candidate: \b<num>\b(?!\d) occurs somewhere in the text. -/
def standaloneNine (num : Str) (text : Str) : Bool :=
  (scanB (fun prev s =>
    if atBoundary prev then
      match litEx num s with
      | some r => if boundaryAfter r && notDigitAhead r then some () else none
      | none => none
    else none) none text).isSome

/-- The NIF extraction of the parse-pdf-file handler: labelled pattern,
then the NIF: pattern, then the first standalone nine-digit candidate
that passes the standalone re-test. -/
def extractNif (text : Str) : Str :=
  match nifPattern1 text with
  | some d => d
  | none =>
    match nifPattern2 text with
    | some d => d
    | none =>
      match (findAllNine text).find? (fun num => standaloneNine num text) with
      | some d => d
      | none => []

/-- The class [.\s]. -/
def sepDot (c : Char) : Bool := c == '.' || jsIsWs c

/-- referenceMatch: (\d{3}[.\s]\d{3}[.\s]\d{3}[.\s]\d{3}[.\s]\d{3}) at
one position. -/
def ref1At (s : Str) : Option Str := do
  let (d1, r1) ← takeDigitsN 3 s
  let (c1, r2) ← classChar sepDot r1
  let (d2, r3) ← takeDigitsN 3 r2
  let (c2, r4) ← classChar sepDot r3
  let (d3, r5) ← takeDigitsN 3 r4
  let (c3, r6) ← classChar sepDot r5
  let (d4, r7) ← takeDigitsN 3 r6
  let (c4, r8) ← classChar sepDot r7
  let (d5, _) ← takeDigitsN 3 r8
  pure (d1 ++ c1 :: d2 ++ c2 :: d3 ++ c3 :: d4 ++ c4 :: d5)

/-- referenceMatch, leftmost. -/
def referenceMatch1 (text : Str) : Option Str := scanA ref1At text

/-- referenceMatch2: \b(\d{15})\b at one position. -/
def ref2At (prev : Option Char) (s : Str) : Option Str :=
  if atBoundary prev then
    match takeDigitsN 15 s with
    | some (d, r) => if boundaryAfter r then some d else none
    | none => none
  else none

/-- referenceMatch2, leftmost. -/
def referenceMatch2 (text : Str) : Option Str := scanB ref2At none text

/-- The class [\d\s.]. -/
def cls3 (c : Char) : Bool := c.isDigit || jsIsWs c || c == '.'

/-- The greedy tail [\d\s.]{15,25} of referenceMatch3: up to 25 class
characters, at least 15. -/
def ref3Run (s : Str) : Option Str :=
  let r := (s.takeWhile cls3).take 25
  if 15 ≤ r.length then some r else none

/-- referenceMatch3: Refer[êe]ncia\s+para\s+pagamento[\s\S]*?([\d\s.]{15,25})
at one position; the lazy gap scans forward for the first position with
a long enough class run. -/
def ref3At (s : Str) : Option Str := do
  let r1 ← litCI (("refer").data) s
  let (_, r2) ← classChar (fun c => jsLower c == 'ê' || jsLower c == 'e') r1
  let r3 ← litCI (("ncia").data) r2
  let r4 ← wsPlus r3
  let r5 ← litCI (("para").data) r4
  let r6 ← wsPlus r5
  let r7 ← litCI (("pagamento").data) r6
  scanA ref3Run r7

/-- referenceMatch3, leftmost. -/
def referenceMatch3 (text : Str) : Option Str := scanA ref3At text

/-- referenceMatch4: one group \d{2,3} with its separator, with the
greedy three-digit alternative tried before the two-digit one, and full
backtracking across the five groups. -/
def ref4Groups : Nat → Str → Option Str
  | 0, _ => none
  | 1, s =>
    match (takeDigitsN 3 s).map Prod.fst with
    | some d => some d
    | none => (takeDigitsN 2 s).map Prod.fst
  | n + 2, s =>
    match (do
      let (d, r) ← takeDigitsN 3 s
      let (c, r2) ← classChar sepDot r
      let rest ← ref4Groups (n + 1) r2
      pure (d ++ c :: rest)) with
    | some out => some out
    | none => do
      let (d, r) ← takeDigitsN 2 s
      let (c, r2) ← classChar sepDot r
      let rest ← ref4Groups (n + 1) r2
      pure (d ++ c :: rest)

/-- referenceMatch4: (\d{2,3}[.\s]\d{2,3}[.\s]\d{2,3}[.\s]\d{2,3}[.\s]\d{2,3}),
leftmost. -/
def referenceMatch4 (text : Str) : Option Str := scanA (ref4Groups 5) text

/-- The barcode tail of the Linha Óptica pattern:
62\s+\d{8}\s+\d\s+\d\s+(\d{11})\s+\d{4}. -/
def ref5Tail (s : Str) : Option Str := do
  let r1 ← litEx (("62").data) s
  let r2 ← wsPlus r1
  let (_, r3) ← takeDigitsN 8 r2
  let r4 ← wsPlus r3
  let (_, r5) ← takeDigitsN 1 r4
  let r6 ← wsPlus r5
  let (_, r7) ← takeDigitsN 1 r6
  let r8 ← wsPlus r7
  let (d, r9) ← takeDigitsN 11 r8
  let r10 ← wsPlus r9
  let (_, _) ← takeDigitsN 4 r10
  pure d

/-- linhaOpticaMatch: Linha\s+[ÓO]ptica followed lazily by the barcode
tail. -/
def linhaOpticaMatch (text : Str) : Option Str :=
  scanA (fun s => do
    let r1 ← litCI (("linha").data) s
    let r2 ← wsPlus r1
    let (_, r3) ← classChar (fun c => jsLower c == 'ó' || jsLower c == 'o') r2
    let r4 ← litCI (("ptica").data) r3
    scanA ref5Tail r4) text

/-- ivaReferenceMatch: 62\s*10210003\s*6\s*9\s*(\d{11})\s*\d{4} at one
position. -/
def ref6At (s : Str) : Option Str := do
  let r1 ← litEx (("62").data) s
  let r2 := skipWs r1
  let r3 ← litEx (("10210003").data) r2
  let r4 := skipWs r3
  let r5 ← litEx (("6").data) r4
  let r6 := skipWs r5
  let r7 ← litEx (("9").data) r6
  let r8 := skipWs r7
  let (d, r9) ← takeDigitsN 11 r8
  let r10 := skipWs r9
  let (_, _) ← takeDigitsN 4 r10
  pure d

/-- ivaReferenceMatch, leftmost. -/
def ivaReferenceMatch (text : Str) : Option Str := scanA ref6At text

/-- replace(/[\s.]/g, ''). -/
def cleanWsDots (s : Str) : Str := s.filter (fun c => !(jsIsWs c || c == '.'))

/-- String.prototype.trim. -/
def jsTrim (s : Str) : Str :=
  ((s.dropWhile jsIsWs).reverse.dropWhile jsIsWs).reverse

/-- The payment reference before the length guard: the six candidate
patterns in the handler's priority order, each with its cleanup. -/
def rawPaymentReference (text : Str) : Str :=
  match referenceMatch1 text with
  | some cap => jsTrim (cleanWsDots cap)
  | none =>
    match referenceMatch2 text with
    | some cap => cap
    | none =>
      match referenceMatch3 text with
      | some cap => jsTrim (cap.filter Char.isDigit)
      | none =>
        match referenceMatch4 text with
        | some cap => jsTrim (cleanWsDots cap)
        | none =>
          match linhaOpticaMatch text with
          | some cap => jsPadStart cap 15 '0'
          | none =>
            match ivaReferenceMatch text with
            | some cap => jsPadStart cap 15 '0'
            | none => []

/-- The payment reference after the exactly-15-digits guard of the
handler. -/
def extractPaymentReference (text : Str) : Str :=
  let r := rawPaymentReference text
  if !r.isEmpty && r.length != 15 then [] else r

/-- The class [\d.,] captured by the amount patterns. -/
def amtClass (c : Char) : Bool := c.isDigit || c == '.' || c == ','

/-- €\s*([\d.,]+) at one position. -/
def amtEuroThen (s : Str) : Option Str := do
  let r1 ← litEx (("€").data) s
  let r2 := skipWs r1
  let cap := r2.takeWhile amtClass
  if cap.isEmpty then none else some cap

/-- amountPattern1: VALOR A PAGAR\s+([\d.,]+) at one position. -/
def amt1At (s : Str) : Option Str := do
  let r1 ← litCI (("valor a pagar").data) s
  let r2 ← wsPlus r1
  let cap := r2.takeWhile amtClass
  if cap.isEmpty then none else some cap

/-- amountPattern2: Importância a pagar[\s\S]*?€\s*([\d.,]+) at one
position. -/
def amt2At (s : Str) : Option Str := do
  let r1 ← litCI (("importância a pagar").data) s
  scanA amtEuroThen r1

/-- amountPattern7: IMPORT[ÂA]NCIA\s+A\s+PAGAR[\s\n\r]+([\d.,]+)\s*€?
at one position (the trailing \s*€? always matches and captures
nothing). -/
def amt7At (s : Str) : Option Str := do
  let r1 ← litCI (("import").data) s
  let (_, r2) ← classChar (fun c => jsLower c == 'â' || jsLower c == 'a') r1
  let r3 ← litCI (("ncia").data) r2
  let r4 ← wsPlus r3
  let r5 ← litCI (("a").data) r4
  let r6 ← wsPlus r5
  let r7 ← litCI (("pagar").data) r6
  let r8 ← wsPlus r7
  let cap := r8.takeWhile amtClass
  if cap.isEmpty then none else some cap

/-- The greedy gap [\s\S]{0,100} of amountPattern5: largest gap first. -/
def amt5Gap : Nat → Str → Option Str
  | 0, s => amtEuroThen s
  | g + 1, s =>
    match amtEuroThen (s.drop (g + 1)) with
    | some cap => some cap
    | none => amt5Gap g s

/-- amountPattern5: Total\s+a\s+Pagar[\s\S]{0,100}€\s*([\d.,]+) at one
position. -/
def amt5At (s : Str) : Option Str := do
  let r1 ← litCI (("total").data) s
  let r2 ← wsPlus r1
  let r3 ← litCI (("a").data) r2
  let r4 ← wsPlus r3
  let r5 ← litCI (("pagar").data) r4
  amt5Gap (min 100 r5.length) r5

/-- amountPattern6: Total\s+a\s+Pagar[\s\n\r]*€?\s*([\d.,]+) at one
position. -/
def amt6At (s : Str) : Option Str := do
  let r1 ← litCI (("total").data) s
  let r2 ← wsPlus r1
  let r3 ← litCI (("a").data) r2
  let r4 ← wsPlus r3
  let r5 ← litCI (("pagar").data) r4
  let a := skipWs r5
  match (do
    let b ← litEx (("€").data) a
    let c := skipWs b
    let cap := c.takeWhile amtClass
    if cap.isEmpty then none else some cap) with
  | some cap => some cap
  | none =>
    let cap := a.takeWhile amtClass
    if cap.isEmpty then none else some cap

/-- amountPattern4: Total\s*:?\s*€?\s*([\d.,]+) at one position. -/
def amt4At (s : Str) : Option Str := do
  let r1 ← litCI (("total").data) s
  let a := skipWs r1
  let b := if a.head? == some ':' then skipWs a.tail else a
  match (do
    let c ← litEx (("€").data) b
    let d := skipWs c
    let cap := d.takeWhile amtClass
    if cap.isEmpty then none else some cap) with
  | some cap => some cap
  | none =>
    let cap := b.takeWhile amtClass
    if cap.isEmpty then none else some cap

/-- The backtracking of amountPattern8: the capture gives characters
back from the right until \s*€ matches. -/
def amt8Len : Nat → Str → Option Str
  | 0, _ => none
  | l + 1, s =>
    let rest := skipWs (s.drop (l + 1))
    if rest.head? == some '€' then some (s.take (l + 1)) else amt8Len l s

/-- amountPattern8: ([\d.,]+)\s*€ at one position. -/
def amt8At (s : Str) : Option Str :=
  amt8Len (s.takeWhile amtClass).length s

/-- The amount capture: the eight patterns in the handler's priority
order p1, p2, p7, p5, p6, p4, p8, p3, each leftmost. -/
def extractAmountCapture (text : Str) : Option Str :=
  match scanA amt1At text with
  | some cap => some cap
  | none =>
    match scanA amt2At text with
    | some cap => some cap
    | none =>
      match scanA amt7At text with
      | some cap => some cap
      | none =>
        match scanA amt5At text with
        | some cap => some cap
        | none =>
          match scanA amt6At text with
          | some cap => some cap
          | none =>
            match scanA amt4At text with
            | some cap => some cap
            | none =>
              match scanA amt8At text with
              | some cap => some cap
              | none => scanA amtEuroThen text

/-- replace(',', '.'): only the first comma is replaced, as the string
form of String.prototype.replace does. -/
def jsReplaceFirstComma : Str → Str
  | [] => []
  | c :: t => if c == ',' then '.' :: t else c :: jsReplaceFirstComma t

/-- The amount normalization of the handler: strip all dots, then turn
the first comma into a decimal point. -/
def normalizeAmountStr (s : Str) : Str :=
  jsReplaceFirstComma (s.filter (fun c => !(c == '.')))

/-- The fraction digits of parseFloat: the digits after the decimal
point when the remainder starts with one, nothing otherwise. -/
def fracDigits (r : Str) : Str :=
  if r.head? == some '.' then r.tail.takeWhile Char.isDigit else []

/-- The magnitude part of parseFloat: digits, an optional point, more
digits; NaN (none) when no digit is found. -/
def parseFloatMag (t : Str) : Option ℚ :=
  let ip := t.takeWhile Char.isDigit
  let fp := fracDigits (t.drop ip.length)
  if ip.isEmpty && fp.isEmpty then none
  else some ((strNatVal ip : ℚ) + (strNatVal fp : ℚ) / 10 ^ fp.length)

/-- parseFloat on the digits-dots-commas strings reachable here (no
exponents or infinities can occur): optional sign then magnitude;
none models NaN. -/
def jsParseFloat (s : Str) : Option ℚ :=
  let t := s.dropWhile jsIsWs
  if t.head? == some '-' then (parseFloatMag t.tail).map (fun q => -q)
  else if t.head? == some '+' then parseFloatMag t.tail
  else parseFloatMag t

/-- The amount variable of the handler: 0 when no pattern matched, the
parseFloat of the normalized capture otherwise (none models NaN). -/
def extractAmount (text : Str) : Option ℚ :=
  match extractAmountCapture text with
  | none => some 0
  | some cap => jsParseFloat (normalizeAmountStr cap)

/-- JavaScript truthiness of the amount variable (!amount is the
missing-field test; 0 and NaN are falsy). -/
def amountTruthy (o : Option ℚ) : Bool :=
  match o with
  | some q => if q = 0 then false else true
  | none => false

/-- The extracted fields the claims are about (the optional fields
documentNumber, taxpayerName, dueDate, taxCode and period do not feed
any claim and are omitted). -/
structure ParsedCore where
  nif : Str
  paymentReference : Str
  entity : Str
  amount : Option ℚ
  deriving DecidableEq

/-- The ParseResult shape returned by the parse-pdf-file handler after
text extraction succeeded. -/
structure ParseResult where
  success : Bool
  needsReview : Bool
  missingFields : List Str
  extractedText : Option Str
  data : ParsedCore
  deriving DecidableEq

/-- The missing-field label for the payment reference. -/
def missingLabelRef : Str := ("Referência de pagamento").data

/-- The missing-field label for the amount. -/
def missingLabelAmt : Str := ("Valor a pagar").data

/-- The missing-field label for the NIF. -/
def missingLabelNif : Str := ("NIF").data

/-- The pure extraction-and-validation core of the parse-pdf-file
handler: extract the fields, collect missing mandatory fields in the
handler's order, and return either the success result or the
needs-review result carrying the missing-field list and the raw text. -/
def parsePdfText (text : Str) : ParseResult :=
  let nif := extractNif text
  let paymentReference := extractPaymentReference text
  let entity := paymentReference.take 3
  let amount := extractAmount text
  let missingFields :=
    (if paymentReference.isEmpty then [missingLabelRef] else []) ++
    (if !(amountTruthy amount) then [missingLabelAmt] else []) ++
    (if nif.isEmpty then [missingLabelNif] else [])
  if missingFields.isEmpty then
    { success := true, needsReview := false, missingFields := []
      extractedText := none
      data := { nif, paymentReference, entity, amount } }
  else
    { success := false, needsReview := true, missingFields
      extractedText := some text
      data := { nif, paymentReference, entity, amount } }

/-- A well-formed sample payment used by witnesses. -/
def samplePayment : PaymentData :=
  { nif := ("123456789").data
    paymentReference := ("123456789012345").data
    amount := 3 }

/-- The sample payment with only the 15th digit of the payment
reference changed. -/
def samplePaymentAltRef : PaymentData :=
  { nif := ("123456789").data
    paymentReference := ("123456789012346").data
    amount := 3 }

/-- A payment of half a cent (an amount with sub-cent precision). -/
def samplePaymentHalfCent : PaymentData := { amount := (1 : ℚ)/200 }

/-- A payment whose amount in cents needs 14 digits. -/
def samplePaymentHuge : PaymentData := { amount := (10 : ℚ)^11 }

/-- A sample PS2 configuration with an explicit execution date. -/
def sampleConfig : PS2Config := { executionDate := some (JsDate.mk 2025 1 2) }

/-- A sample current date. -/
def sampleNow : JsDate := JsDate.mk 2025 10 12

theorem jsPadStart_length (s : Str) (n : Nat) (c : Char) :
    (jsPadStart s n c).length = max n s.length := by
  simp [jsPadStart]
  omega

theorem jsPadStart_of_length_le (s : Str) (n : Nat) (c : Char)
    (h : s.length ≤ n) : (jsPadStart s n c).length = n := by
  rw [jsPadStart_length]
  omega

theorem jsNatToStringAux_stable (f₁ : Nat) :
    ∀ f₂ n, n < f₁ → n < f₂ →
      jsNatToStringAux f₁ n = jsNatToStringAux f₂ n := by
  induction f₁ with
  | zero => intro f₂ n h; omega
  | succ f ih =>
    intro f₂ n h h₂
    cases f₂ with
    | zero => omega
    | succ f₂ =>
      simp only [jsNatToStringAux]
      by_cases h10 : n < 10
      · simp [h10]
      · have hd : n / 10 < n := Nat.div_lt_self (by omega) (by omega)
        simp only [h10, if_false]
        rw [ih f₂ (n / 10) (by omega) (by omega)]

theorem jsNatToString_eq (n : Nat) :
    jsNatToString n =
      if n < 10 then [Nat.digitChar n]
      else jsNatToString (n / 10) ++ [Nat.digitChar (n % 10)] := by
  by_cases h10 : n < 10
  · simp [jsNatToString, jsNatToStringAux, h10]
  · have hd : n / 10 < n := Nat.div_lt_self (by omega) (by omega)
    have lhs : jsNatToString n =
        jsNatToStringAux n (n / 10) ++ [Nat.digitChar (n % 10)] := by
      show jsNatToStringAux (n + 1) n = _
      simp only [jsNatToStringAux, h10, if_false]
    rw [lhs, jsNatToStringAux_stable n (n / 10 + 1) (n / 10) hd (by omega),
      if_neg h10]
    rfl

theorem jsNatToString_ne_nil (n : Nat) : jsNatToString n ≠ [] := by
  rw [jsNatToString_eq]
  by_cases h10 : n < 10 <;> simp [h10]

theorem digitChar_isDigit : ∀ d, d < 10 → (Nat.digitChar d).isDigit = true := by
  decide

theorem digitVal_digitChar : ∀ d, d < 10 → digitVal (Nat.digitChar d) = d := by
  decide

theorem jsNatToString_all_digit (n : Nat) :
    ∀ c ∈ jsNatToString n, c.isDigit = true := by
  induction n using Nat.strong_induction_on with
  | _ n ih =>
    rw [jsNatToString_eq]
    by_cases h10 : n < 10
    · simp only [h10, if_true, List.mem_singleton]
      rintro c rfl
      exact digitChar_isDigit n h10
    · have hd : n / 10 < n := Nat.div_lt_self (by omega) (by omega)
      simp only [h10, if_false, List.mem_append, List.mem_singleton]
      rintro c (hc | rfl)
      · exact ih (n / 10) hd c hc
      · exact digitChar_isDigit (n % 10) (Nat.mod_lt n (by omega))

theorem jsNatToString_length_le (k : Nat) :
    ∀ n, 0 < k → n < 10 ^ k → (jsNatToString n).length ≤ k := by
  induction k with
  | zero => intro n h; omega
  | succ k ih =>
    intro n _ hn
    rw [jsNatToString_eq]
    by_cases h10 : n < 10
    · simp [h10]
    · have hk : 0 < k := by
        by_contra hk
        have : k = 0 := by omega
        subst this
        simp [pow_succ] at hn
        omega
      have : n / 10 < 10 ^ k := by
        rw [Nat.div_lt_iff_lt_mul (by omega)]
        calc n < 10 ^ (k + 1) := hn
        _ = 10 ^ k * 10 := by rw [pow_succ]
      simp only [h10, if_false, List.length_append, List.length_singleton]
      have := ih (n / 10) hk this
      omega

theorem jsNatToString_length_ge (k : Nat) :
    ∀ n, 10 ^ k ≤ n → k + 1 ≤ (jsNatToString n).length := by
  induction k with
  | zero =>
    intro n _
    have := jsNatToString_ne_nil n
    cases h : jsNatToString n with
    | nil => exact absurd h this
    | cons a l => simp
  | succ k ih =>
    intro n hn
    have h10 : ¬ n < 10 := by
      have : 10 ≤ 10 ^ (k + 1) := by
        calc (10 : Nat) = 10 ^ 1 := (pow_one 10).symm
        _ ≤ 10 ^ (k + 1) := Nat.pow_le_pow_right (by omega) (by omega)
      omega
    rw [jsNatToString_eq]
    simp only [h10, if_false, List.length_append, List.length_singleton]
    have : 10 ^ k ≤ n / 10 := by
      rw [Nat.le_div_iff_mul_le (by omega)]
      calc 10 ^ k * 10 = 10 ^ (k + 1) := (pow_succ 10 k).symm
      _ ≤ n := hn
    have := ih (n / 10) this
    omega

theorem strNatVal_append (a b : Str) :
    strNatVal (a ++ b) = b.foldl (fun x c => 10 * x + digitVal c) (strNatVal a) := by
  simp [strNatVal, List.foldl_append]

theorem strNatVal_jsNatToString (n : Nat) : strNatVal (jsNatToString n) = n := by
  induction n using Nat.strong_induction_on with
  | _ n ih =>
    rw [jsNatToString_eq]
    by_cases h10 : n < 10
    · simp only [h10, if_true]
      simp [strNatVal, digitVal_digitChar n h10]
    · have hd : n / 10 < n := Nat.div_lt_self (by omega) (by omega)
      simp only [h10, if_false]
      rw [strNatVal_append]
      simp only [List.foldl_cons, List.foldl_nil]
      rw [ih (n / 10) hd, digitVal_digitChar (n % 10) (Nat.mod_lt n (by omega))]
      omega

theorem strNatVal_replicate_zero (k : Nat) (s : Str) :
    strNatVal (List.replicate k '0' ++ s) = strNatVal s := by
  induction k with
  | zero => simp
  | succ k ih =>
    rw [List.replicate_succ]
    simpa [strNatVal] using ih

theorem strToNat?_pad_jsNatToString (n w : Nat) :
    strToNat? (jsPadStart (jsNatToString n) w '0') = some n := by
  have hne : jsPadStart (jsNatToString n) w '0' ≠ [] := by
    intro h
    have h2 : List.replicate (w - (jsNatToString n).length) '0' ++
        jsNatToString n = [] := h
    exact jsNatToString_ne_nil n (List.append_eq_nil.mp h2).2
  have hall : ∀ c ∈ jsPadStart (jsNatToString n) w '0', c.isDigit = true := by
    intro c hc
    rcases List.mem_append.mp hc with hc | hc
    · have := List.eq_of_mem_replicate hc
      subst this
      decide
    · exact jsNatToString_all_digit n c hc
  have hniE : (jsPadStart (jsNatToString n) w '0').isEmpty = false := by
    cases h : jsPadStart (jsNatToString n) w '0' with
    | nil => exact absurd h hne
    | cons a l => rfl
  simp only [strToNat?]
  rw [if_pos]
  · rw [jsPadStart]
    rw [strNatVal_replicate_zero, strNatVal_jsNatToString]
  · simp only [Bool.and_eq_true, List.all_eq_true, hniE]
    exact ⟨rfl, hall⟩

theorem drop_append_length (a b : Str) : (a ++ b).drop a.length = b := by
  induction a <;> simp [*]

theorem take_append_length (a b : Str) : (a ++ b).take a.length = a := by
  induction a <;> simp [*]

theorem drop_append_of_length (a b : Str) (n : Nat) (h : a.length = n) :
    (a ++ b).drop n = b := by
  subst h
  exact drop_append_length a b

theorem take_append_of_length (a b : Str) (n : Nat) (h : a.length = n) :
    (a ++ b).take n = a := by
  subst h
  exact take_append_length a b

theorem jsIsWs_iff (c : Char) :
    jsIsWs c = true ↔
      c = ' ' ∨ c = '\t' ∨ c = '\n' ∨ c = '\r' ∨ c = Char.ofNat 11 ∨
      c = Char.ofNat 12 ∨ c = Char.ofNat 160 ∨ c = Char.ofNat 0x2028 ∨
      c = Char.ofNat 0x2029 ∨ c = Char.ofNat 0xFEFF := by
  simp [jsIsWs, Bool.or_eq_true, beq_iff_eq, or_assoc]

theorem jsIsWs_of_isDigit (c : Char) (h : c.isDigit = true) : jsIsWs c = false := by
  cases hws : jsIsWs c with
  | false => rfl
  | true =>
    rcases (jsIsWs_iff c).mp hws with rfl | rfl | rfl | rfl | rfl | rfl | rfl | rfl | rfl | rfl <;>
      exact absurd h (by decide)

theorem isDigit_ne_dot (c : Char) (h : c.isDigit = true) : c ≠ '.' := by
  rintro rfl
  exact absurd h (by decide)

theorem isDigit_ne_dash (c : Char) (h : c.isDigit = true) : c ≠ '-' := by
  rintro rfl
  exact absurd h (by decide)

theorem isDigit_ne_comma (c : Char) (h : c.isDigit = true) : c ≠ ',' := by
  rintro rfl
  exact absurd h (by decide)

theorem formatNIB_length (nib : Option Str) : (formatNIB nib).length = 21 := by
  match nib with
  | none => simp [formatNIB]
  | some s =>
    simp only [formatNIB]
    split
    · simp
    · split
      · rename_i h
        simp only [List.length_drop]
        omega
      · rename_i h
        rw [jsPadStart_of_length_le]
        omega

theorem formatDate_length (d : JsDate) (hy : 1000 ≤ d.year ∧ d.year < 10000)
    (hm : d.month < 100) (hd : d.day < 100) : (formatDate d).length = 8 := by
  have h4le : (jsNatToString d.year).length ≤ 4 :=
    jsNatToString_length_le 4 d.year (by omega) (by simpa using hy.2)
  have h4ge : 4 ≤ (jsNatToString d.year).length := by
    have := jsNatToString_length_ge 3 d.year (by simpa using hy.1)
    omega
  have hmo : (jsPadStart (jsNatToString d.month) 2 '0').length = 2 :=
    jsPadStart_of_length_le _ _ _
      (jsNatToString_length_le 2 d.month (by omega) (by simpa using hm))
  have hda : (jsPadStart (jsNatToString d.day) 2 '0').length = 2 :=
    jsPadStart_of_length_le _ _ _
      (jsNatToString_length_le 2 d.day (by omega) (by simpa using hd))
  simp only [formatDate, List.length_append, hmo, hda]
  omega

theorem formatAmount_length (q : ℚ) (h : 0 ≤ jsRound (q * 100))
    (h2 : jsRound (q * 100) < 10 ^ 13) : (formatAmount q).length = 13 := by
  have he : jsIntToString (jsRound (q * 100)) = jsNatToString (jsRound (q * 100)).toNat := by
    simp [jsIntToString, not_lt.mpr h]
  have hlt : (jsRound (q * 100)).toNat < 10 ^ 13 := by omega
  simp only [formatAmount, he]
  exact jsPadStart_of_length_le _ _ _
    (jsNatToString_length_le 13 _ (by omega) (by simpa using hlt))

theorem formatOrderingReference_length (nif : Str) :
    (formatOrderingReference nif).length = 20 := by
  simp only [formatOrderingReference]
  apply jsPadStart_of_length_le
  have : ((nif.filter Char.isDigit).take 9).length ≤ 9 := by
    simp [List.length_take]
  omega

theorem formatTransferReference_length (r : Str) :
    (formatTransferReference r).length = 15 := by
  simp only [formatTransferReference, List.length_append]
  rw [jsPadStart_of_length_le]
  · rfl
  · simp [List.length_take]

theorem ps2Header_length (config : PS2Config) (now : JsDate)
    (hy : 1000 ≤ (config.executionDate.getD now).year ∧
      (config.executionDate.getD now).year < 10000)
    (hm : (config.executionDate.getD now).month < 100)
    (hd : (config.executionDate.getD now).day < 100) :
    (ps2Header config now).length = 80 := by
  simp only [ps2Header, List.length_append, formatNIB_length,
    formatDate_length _ hy hm hd, List.length_replicate]
  rfl

theorem ps2Detail_length (p : PaymentData) (h : 0 ≤ paymentCents p)
    (h2 : paymentCents p < 10 ^ 13) : (ps2Detail p).length = 80 := by
  simp only [ps2Detail, List.length_append, formatAmount_length p.amount h h2,
    formatOrderingReference_length, formatTransferReference_length,
    List.length_replicate]
  rfl

theorem ps2Footer_length (payments : List PaymentData)
    (hc : payments.length < 10 ^ 14)
    (ht : 0 ≤ ps2TotalCents payments ∧ ps2TotalCents payments < 10 ^ 13) :
    (ps2Footer payments).length = 80 := by
  have hcf : (jsPadStart (jsNatToString payments.length) 14 '0').length = 14 :=
    jsPadStart_of_length_le _ _ _
      (jsNatToString_length_le 14 _ (by omega) (by simpa using hc))
  have he : jsIntToString (ps2TotalCents payments) =
      jsNatToString (ps2TotalCents payments).toNat := by
    simp [jsIntToString, not_lt.mpr ht.1]
  have htf : (jsPadStart (jsIntToString (ps2TotalCents payments)) 13 '0').length = 13 := by
    rw [he]
    exact jsPadStart_of_length_le _ _ _
      (jsNatToString_length_le 13 _ (by omega) (by simpa using (by omega : (ps2TotalCents payments).toNat < 10 ^ 13)))
  simp only [ps2Footer, List.length_append, hcf, htf, List.length_replicate]
  rfl

unseal Rat.mul Rat.add Rat.inv Rat.sub in
/-- Claim C1 (counterexample): a payment of 10^11 euros produces a
detail record and a footer record of 81 characters, so not every line
of the PS2 output is 80 characters long. -/
theorem c1_counterexample :
    ((ps2Lines [samplePaymentHuge] sampleConfig sampleNow).map List.length =
      [80, 81, 81]) ∧
    ¬ (∀ l ∈ ps2Lines [samplePaymentHuge] sampleConfig sampleNow, l.length = 80) := by
  decide

/-- Claim C1 (amended): every record of the PS2 output is exactly 80
characters long, provided the execution date's year has four digits,
its month and day two, each payment's rounded cents and the batch's
rounded total cents are non-negative and fit the 13-digit amount
fields, and the batch size fits the 14-digit count field. -/
theorem c1_every_record_80 (payments : List PaymentData) (config : PS2Config)
    (now : JsDate)
    (hy : 1000 ≤ (config.executionDate.getD now).year ∧
      (config.executionDate.getD now).year < 10000)
    (hm : (config.executionDate.getD now).month < 100)
    (hd : (config.executionDate.getD now).day < 100)
    (ha : ∀ p ∈ payments, 0 ≤ paymentCents p ∧ paymentCents p < 10 ^ 13)
    (hc : payments.length < 10 ^ 14)
    (ht : 0 ≤ ps2TotalCents payments ∧ ps2TotalCents payments < 10 ^ 13) :
    ∀ l ∈ ps2Lines payments config now, l.length = 80 := by
  intro l hl
  rcases List.mem_cons.mp hl with rfl | hl
  · exact ps2Header_length config now hy hm hd
  · rcases List.mem_append.mp hl with hl | hl
    · rcases List.mem_map.mp hl with ⟨p, hp, rfl⟩
      exact ps2Detail_length p (ha p hp).1 (ha p hp).2
    · rcases List.mem_singleton.mp hl with rfl
      exact ps2Footer_length payments hc ht

unseal Rat.mul Rat.add Rat.inv Rat.sub in
/-- Witness for C1 (amended) at the empty batch: the header of the
generated file is 80 characters. -/
theorem c1_every_record_80_witness :
    (ps2Header sampleConfig sampleNow).length = 80 :=
  c1_every_record_80 [] sampleConfig sampleNow (by decide) (by decide)
    (by decide) (by simp) (by decide) (by decide)
    (ps2Header sampleConfig sampleNow) (List.mem_cons_self _ _)

theorem jsRound_intCast (k : ℤ) : jsRound (k : ℚ) = k := by
  rw [jsRound, add_comm, Int.floor_add_int]
  norm_num

theorem jsRound_int_add (k : ℤ) (x : ℚ) : jsRound ((k : ℚ) + x) = k + jsRound x := by
  rw [jsRound, add_assoc, Int.floor_int_add, jsRound]

theorem paymentCents_whole (p : PaymentData) (k : ℤ) (hk : p.amount = (k : ℚ)/100) :
    paymentCents p = k := by
  have h : p.amount * 100 = (k : ℚ) := by
    rw [hk]
    exact div_mul_cancel₀ _ (by norm_num)
  rw [paymentCents, h, jsRound_intCast]

theorem ps2TotalCents_whole (payments : List PaymentData)
    (hw : ∀ p ∈ payments, ∃ k : ℤ, 0 ≤ k ∧ p.amount = (k : ℚ)/100) :
    ps2TotalCents payments = (payments.map paymentCents).sum := by
  induction payments with
  | nil =>
    simp only [ps2TotalCents, List.map_nil, List.sum_nil, zero_mul, jsRound]
    norm_num
  | cons p ps ih =>
    obtain ⟨k, hk0, hk⟩ := hw p (List.mem_cons_self p ps)
    have hrest := ih (fun q hq => hw q (List.mem_cons_of_mem p hq))
    simp only [ps2TotalCents, List.map_cons, List.sum_cons] at *
    have hmul : (p.amount + (ps.map (fun p => p.amount)).sum) * 100 =
        (k : ℚ) + (ps.map (fun p => p.amount)).sum * 100 := by
      rw [add_mul, hk]
      congr 1
      exact div_mul_cancel₀ _ (by norm_num)
    rw [hmul, jsRound_int_add, paymentCents_whole p k hk, hrest]

theorem centsSum_nonneg (payments : List PaymentData)
    (hw : ∀ p ∈ payments, ∃ k : ℤ, 0 ≤ k ∧ p.amount = (k : ℚ)/100) :
    0 ≤ (payments.map paymentCents).sum := by
  apply List.sum_nonneg
  intro x hx
  rcases List.mem_map.mp hx with ⟨p, hp, rfl⟩
  obtain ⟨k, hk0, hk⟩ := hw p hp
  rw [paymentCents_whole p k hk]
  exact hk0

theorem ps2ParseFooter_spec (payments : List PaymentData)
    (hc : payments.length < 10 ^ 14)
    (hnn : 0 ≤ ps2TotalCents payments) (hub : ps2TotalCents payments < 10 ^ 13) :
    ps2ParseFooter (ps2Footer payments) =
      some (payments.length, (ps2TotalCents payments).toNat) := by
  have h1 : ps2Footer payments =
      (("PS2947000000000").data) ++
        (jsPadStart (jsNatToString payments.length) 14 '0' ++
          (jsPadStart (jsIntToString (ps2TotalCents payments)) 13 '0' ++
            List.replicate 38 '0')) := by
    simp only [ps2Footer, List.append_assoc]
    rfl
  have hcfl : (jsPadStart (jsNatToString payments.length) 14 '0').length = 14 :=
    jsPadStart_of_length_le _ _ _
      (jsNatToString_length_le 14 _ (by omega) (by simpa using hc))
  have hint : jsIntToString (ps2TotalCents payments) =
      jsNatToString (ps2TotalCents payments).toNat := by
    simp [jsIntToString, not_lt.mpr hnn]
  have htfl : (jsPadStart (jsIntToString (ps2TotalCents payments)) 13 '0').length = 13 := by
    rw [hint]
    exact jsPadStart_of_length_le _ _ _
      (jsNatToString_length_le 13 _ (by omega)
        (by simpa using (by omega : (ps2TotalCents payments).toNat < 10 ^ 13)))
  have hdrop15 : (ps2Footer payments).drop 15 =
      jsPadStart (jsNatToString payments.length) 14 '0' ++
        (jsPadStart (jsIntToString (ps2TotalCents payments)) 13 '0' ++
          List.replicate 38 '0') := by
    rw [h1]
    exact drop_append_of_length _ _ 15 (by rfl)
  have hdrop29 : (ps2Footer payments).drop 29 =
      jsPadStart (jsIntToString (ps2TotalCents payments)) 13 '0' ++
        List.replicate 38 '0' := by
    rw [show (29 : Nat) = 15 + 14 from rfl, ← List.drop_drop, hdrop15]
    exact drop_append_of_length _ _ 14 hcfl
  rw [ps2ParseFooter, hdrop15, hdrop29, take_append_of_length _ _ 14 hcfl,
    take_append_of_length _ _ 13 htfl]
  rw [strToNat?_pad_jsNatToString, hint, strToNat?_pad_jsNatToString]

unseal Rat.mul Rat.add Rat.inv Rat.sub in
/-- Claim C3 (counterexample): for the batch of two half-cent payments
the footer's total field re-parses to 1 cent while the cents-sum of the
detail amounts is 2, so the re-parsed footer total does not equal the
cents-sum of the batch. -/
theorem c3_counterexample :
    ps2ParseFooter (ps2Footer [samplePaymentHalfCent, samplePaymentHalfCent]) =
      some (2, 1) ∧
    (([samplePaymentHalfCent, samplePaymentHalfCent]).map paymentCents).sum = 2 ∧
    ¬ (ps2ParseFooter (ps2Footer [samplePaymentHalfCent, samplePaymentHalfCent]) =
        some (2,
          ((([samplePaymentHalfCent, samplePaymentHalfCent]).map paymentCents).sum).toNat)) := by
  decide

/-- Claim C3 (amended): for batches whose amounts are whole non-negative
cents, with the count and total fitting their 14- and 13-digit fields,
the footer is the last record of the output and re-parsing its fixed
fields returns the batch size and the cents-sum of the amounts
exactly. -/
theorem c3_footer_roundtrip (payments : List PaymentData) (config : PS2Config)
    (now : JsDate)
    (hw : ∀ p ∈ payments, ∃ k : ℤ, 0 ≤ k ∧ p.amount = (k : ℚ)/100)
    (hc : payments.length < 10 ^ 14)
    (ht : (payments.map paymentCents).sum < 10 ^ 13) :
    (ps2Lines payments config now).getLast? = some (ps2Footer payments) ∧
    ps2ParseFooter (ps2Footer payments) =
      some (payments.length, ((payments.map paymentCents).sum).toNat) := by
  have htot := ps2TotalCents_whole payments hw
  have hnn : 0 ≤ ps2TotalCents payments := by
    rw [htot]
    exact centsSum_nonneg payments hw
  constructor
  · show (ps2Header config now ::
      (payments.map ps2Detail ++ [ps2Footer payments])).getLast? = _
    rw [← List.cons_append, List.getLast?_concat]
  · rw [ps2ParseFooter_spec payments hc hnn (by rw [htot]; exact ht), htot]

unseal Rat.mul Rat.add Rat.inv Rat.sub in
/-- Witness for C3 (amended) at a one-payment batch of 3 euros. -/
theorem c3_footer_roundtrip_witness :
    (ps2Lines [samplePayment] sampleConfig sampleNow).getLast? =
      some (ps2Footer [samplePayment]) ∧
    ps2ParseFooter (ps2Footer [samplePayment]) =
      some (1, (([samplePayment].map paymentCents).sum).toNat) :=
  c3_footer_roundtrip [samplePayment] sampleConfig sampleNow
    (by
      intro p hp
      rcases List.mem_singleton.mp hp with rfl
      exact ⟨300, by norm_num, by norm_num [samplePayment]⟩)
    (by decide) (by decide)

unseal Rat.mul Rat.add Rat.inv Rat.sub in
/-- Claim C5 (counterexample): two payments whose 15-digit payment
references differ only in the final digit produce identical PS2 detail
records, so the full 15-digit payment reference is not recoverable from
the detail record (the encoding is not lossless). -/
theorem c5_counterexample :
    ps2Detail samplePayment = ps2Detail samplePaymentAltRef ∧
    samplePayment.paymentReference ≠ samplePaymentAltRef.paymentReference := by
  decide

/-- Claim C5 (amended): for a payment with a 9-digit NIF and a 15-digit
payment reference (and an amount fitting its field), the detail
record's ordering-reference field holds the NIF right-aligned in 20
characters padded with spaces, and its transfer-reference field holds
only the first 14 digits of the payment reference followed by the
constant suffix 3; the NIF and the first 14 reference digits are
recoverable, the 15th digit is discarded. -/
theorem c5_detail_reference_fields (p : PaymentData)
    (hn9 : p.nif.length = 9) (hnd : ∀ c ∈ p.nif, c.isDigit = true)
    (hr15 : p.paymentReference.length = 15)
    (hrd : ∀ c ∈ p.paymentReference, c.isDigit = true)
    (ha : 0 ≤ paymentCents p) (ha2 : paymentCents p < 10 ^ 13) :
    ((ps2Detail p).drop 43).take 20 = List.replicate 11 ' ' ++ p.nif ∧
    ((ps2Detail p).drop 63).take 15 = p.paymentReference.take 14 ++ ['3'] := by
  have ham : (formatAmount p.amount).length = 13 := formatAmount_length _ ha ha2
  have hord : formatOrderingReference p.nif = List.replicate 11 ' ' ++ p.nif := by
    rw [formatOrderingReference, List.filter_eq_self.mpr hnd, ← hn9,
      List.take_length, jsPadStart, hn9]
  have htr : formatTransferReference p.paymentReference =
      p.paymentReference.take 14 ++ ['3'] := by
    rw [formatTransferReference]
    have hfil : p.paymentReference.filter
        (fun c => !(jsIsWs c || c == '.' || c == '-')) = p.paymentReference := by
      apply List.filter_eq_self.mpr
      intro c hc
      have hd := hrd c hc
      simp [Bool.or_eq_true, jsIsWs_of_isDigit c hd, beq_iff_eq,
        isDigit_ne_dot c hd, isDigit_ne_dash c hd]
    rw [hfil]
    have h14 : (p.paymentReference.take 14).length = 14 := by
      simp [List.length_take, hr15]
    rw [jsPadStart, h14]
    simp
  have h1 : ps2Detail p = (("PS2247000").data) ++
      (List.replicate 21 '0' ++ (formatAmount p.amount ++
        (formatOrderingReference p.nif ++
          (formatTransferReference p.paymentReference ++ ("00").data)))) := by
    simp only [ps2Detail, List.append_assoc]
    rfl
  have hd43 : (ps2Detail p).drop 43 = formatOrderingReference p.nif ++
      (formatTransferReference p.paymentReference ++ ("00").data) := by
    rw [h1, show (43 : Nat) = 9 + 34 from rfl, ← List.drop_drop,
      drop_append_of_length _ _ 9 (by rfl),
      show (34 : Nat) = 21 + 13 from rfl, ← List.drop_drop,
      drop_append_of_length _ _ 21 (by simp)]
    exact drop_append_of_length _ _ 13 ham
  have hd63 : (ps2Detail p).drop 63 = formatTransferReference p.paymentReference ++
      ("00").data := by
    rw [show (63 : Nat) = 43 + 20 from rfl, ← List.drop_drop, hd43]
    exact drop_append_of_length _ _ 20 (formatOrderingReference_length _)
  constructor
  · rw [hd43, take_append_of_length _ _ 20 (formatOrderingReference_length _), hord]
  · rw [hd63, take_append_of_length _ _ 15 (formatTransferReference_length _), htr]

unseal Rat.mul Rat.add Rat.inv Rat.sub in
/-- Witness for C5 (amended) at the sample payment. -/
theorem c5_detail_reference_fields_witness :
    ((ps2Detail samplePayment).drop 43).take 20 =
      List.replicate 11 ' ' ++ samplePayment.nif ∧
    ((ps2Detail samplePayment).drop 63).take 15 =
      samplePayment.paymentReference.take 14 ++ ['3'] :=
  c5_detail_reference_fields samplePayment (by decide) (by decide) (by decide)
    (by decide) (by decide) (by decide)

unseal Rat.mul Rat.add Rat.inv Rat.sub in
/-- Claim C6 (counterexample): the empty batch and a one-payment batch
of 3 euros produce the same header record while their footer totals
differ (0 transactions and 0 cents against 1 transaction and 300
cents), so the header cannot carry batch totals equal to the footer
totals. -/
theorem c6_counterexample :
    (ps2Lines [] sampleConfig sampleNow).head? =
      (ps2Lines [samplePayment] sampleConfig sampleNow).head? ∧
    ps2ParseFooter (ps2Footer []) = some (0, 0) ∧
    ps2ParseFooter (ps2Footer [samplePayment]) = some (1, 300) := by
  decide

/-- Claim C6 (amended): the PS2 header record carries no batch-level
totals at all - it is the same for every batch under a given
configuration - and the batch totals appear only in the footer, the
last record of the output. -/
theorem c6_header_no_totals (p₁ p₂ : List PaymentData) (config : PS2Config)
    (now : JsDate) :
    (ps2Lines p₁ config now).head? = some (ps2Header config now) ∧
    (ps2Lines p₁ config now).head? = (ps2Lines p₂ config now).head? ∧
    (ps2Lines p₁ config now).getLast? = some (ps2Footer p₁) := by
  refine ⟨rfl, rfl, ?_⟩
  show (ps2Header config now :: (p₁.map ps2Detail ++ [ps2Footer p₁])).getLast? = _
  rw [← List.cons_append, List.getLast?_concat]

/-- Claim C2: in the SEPA document both the message-level and the
payment-information-level NbOfTxs equal the batch length rendered in
decimal, and both CtrlSum values equal the arithmetic sum of the
amounts formatted to two decimals. -/
theorem c2_sepa_totals (payments : List PaymentData) (config : SepaConfig)
    (nowMs : ℤ) (nowIso : Str) :
    (generateSepaDoc payments config nowMs nowIso).grpHdr.nbOfTxs =
      jsNatToString payments.length ∧
    (generateSepaDoc payments config nowMs nowIso).pmtInf.nbOfTxs =
      jsNatToString payments.length ∧
    (generateSepaDoc payments config nowMs nowIso).grpHdr.ctrlSum =
      jsToFixed2 (sepaControlSum payments) ∧
    (generateSepaDoc payments config nowMs nowIso).pmtInf.ctrlSum =
      jsToFixed2 (sepaControlSum payments) :=
  ⟨rfl, rfl, rfl, rfl⟩

theorem scanA_sound {α : Type} {P : α → Prop} (f : Str → Option α)
    (hf : ∀ s a, f s = some a → P a) :
    ∀ s a, scanA f s = some a → P a := by
  intro s
  induction s with
  | nil => intro a h; exact hf [] a h
  | cons c t ih =>
    intro a h
    rw [scanA] at h
    cases hfc : f (c :: t) with
    | some b =>
      rw [hfc] at h
      simp at h
      subst h
      exact hf _ b hfc
    | none =>
      rw [hfc] at h
      exact ih a h

theorem scanB_sound {α : Type} {P : α → Prop} (f : Option Char → Str → Option α)
    (hf : ∀ pr s a, f pr s = some a → P a) :
    ∀ s pr a, scanB f pr s = some a → P a := by
  intro s
  induction s with
  | nil => intro pr a h; exact hf pr [] a h
  | cons c t ih =>
    intro pr a h
    rw [scanB] at h
    cases hfc : f pr (c :: t) with
    | some b =>
      rw [hfc] at h
      simp at h
      subst h
      exact hf pr _ b hfc
    | none =>
      rw [hfc] at h
      exact ih (some c) a h

theorem takeDigitsN_sound (n : Nat) :
    ∀ s d r, takeDigitsN n s = some (d, r) →
      d.length = n ∧ (∀ c ∈ d, c.isDigit = true) ∧ s = d ++ r := by
  induction n with
  | zero =>
    intro s d r h
    simp only [takeDigitsN, Option.some.injEq, Prod.mk.injEq] at h
    obtain ⟨rfl, rfl⟩ := h
    simp
  | succ n ih =>
    intro s d r h
    cases s with
    | nil => simp [takeDigitsN] at h
    | cons c t =>
      simp only [takeDigitsN] at h
      by_cases hc : c.isDigit
      · rw [if_pos hc] at h
        cases hm : takeDigitsN n t with
        | none => rw [hm] at h; simp at h
        | some pr =>
          obtain ⟨d2, r2⟩ := pr
          rw [hm] at h
          simp only [Option.some.injEq, Prod.mk.injEq] at h
          obtain ⟨hd, hr⟩ := h
          subst hd
          subst hr
          obtain ⟨hl, hdig, heq⟩ := ih t d2 r2 hm
          refine ⟨by simp [hl], ?_, by simp [heq]⟩
          intro x hx
          rcases List.mem_cons.mp hx with rfl | hx
          · exact hc
          · exact hdig x hx
      · rw [if_neg hc] at h
        simp at h

theorem classChar_sound (p : Char → Bool) (s : Str) (c : Char) (r : Str)
    (h : classChar p s = some (c, r)) : p c = true ∧ s = c :: r := by
  cases s with
  | nil => simp [classChar] at h
  | cons a t =>
    simp only [classChar] at h
    by_cases hp : p a
    · rw [if_pos hp] at h
      simp only [Option.some.injEq, Prod.mk.injEq] at h
      obtain ⟨rfl, rfl⟩ := h
      exact ⟨hp, rfl⟩
    · rw [if_neg hp] at h
      simp at h

theorem isDigit_cls3 (c : Char) (h : c.isDigit = true) : cls3 c = true := by
  simp [cls3, h]

theorem sepDot_cls3 (c : Char) (h : sepDot c = true) : cls3 c = true := by
  simp only [sepDot, Bool.or_eq_true] at h
  rcases h with h | h <;> simp [cls3, h]

theorem ref1At_sound (s cap : Str) (h : ref1At s = some cap) :
    ∀ c ∈ cap, cls3 c = true := by
  simp only [ref1At, bind, Option.bind_eq_some, Option.pure_def,
    Option.some.injEq] at h
  obtain ⟨x1, h1, x2, hc1, x3, h2, x4, hc2, x5, h3, x6, hc3, x7, h4, x8, hc4,
    x9, h5, hcap⟩ := h
  subst hcap
  have hd1 := (takeDigitsN_sound 3 s _ _ h1).2.1
  have hd2 := (takeDigitsN_sound 3 x2.2 _ _ h2).2.1
  have hd3 := (takeDigitsN_sound 3 x4.2 _ _ h3).2.1
  have hd4 := (takeDigitsN_sound 3 x6.2 _ _ h4).2.1
  have hd5 := (takeDigitsN_sound 3 x8.2 _ _ h5).2.1
  have hs1 := (classChar_sound sepDot _ _ _ hc1).1
  have hs2 := (classChar_sound sepDot _ _ _ hc2).1
  have hs3 := (classChar_sound sepDot _ _ _ hc3).1
  have hs4 := (classChar_sound sepDot _ _ _ hc4).1
  intro c hc
  simp only [List.mem_append, List.mem_cons] at hc
  rcases hc with ((((hc | (rfl | hc)) | (rfl | hc)) | (rfl | hc)) | (rfl | hc))
  · exact isDigit_cls3 c (hd1 c hc)
  · exact sepDot_cls3 _ hs1
  · exact isDigit_cls3 c (hd2 c hc)
  · exact sepDot_cls3 _ hs2
  · exact isDigit_cls3 c (hd3 c hc)
  · exact sepDot_cls3 _ hs3
  · exact isDigit_cls3 c (hd4 c hc)
  · exact sepDot_cls3 _ hs4
  · exact isDigit_cls3 c (hd5 c hc)

theorem ref4Groups_sound (n : Nat) :
    ∀ s cap, ref4Groups n s = some cap → ∀ c ∈ cap, cls3 c = true := by
  induction n using Nat.strong_induction_on with
  | _ n ih =>
    match n with
    | 0 => intro s cap h; simp [ref4Groups] at h
    | 1 =>
      intro s cap h
      simp only [ref4Groups] at h
      cases h3 : (takeDigitsN 3 s).map Prod.fst with
      | some d =>
        rw [h3] at h
        simp only [Option.some.injEq] at h
        subst h
        rcases Option.map_eq_some.mp h3 with ⟨⟨d1, r1⟩, hd, rfl⟩
        exact fun c hc => isDigit_cls3 c ((takeDigitsN_sound 3 s _ _ hd).2.1 c hc)
      | none =>
        rw [h3] at h
        rcases Option.map_eq_some.mp h with ⟨⟨d1, r1⟩, hd, rfl⟩
        exact fun c hc => isDigit_cls3 c ((takeDigitsN_sound 2 s _ _ hd).2.1 c hc)
    | m + 2 =>
      intro s cap h
      simp only [ref4Groups] at h
      have step : ∀ (k : Nat) (x1 : Str × Str) (x2 : Char × Str) (x3 : Str),
          takeDigitsN k s = some x1 → classChar sepDot x1.2 = some x2 →
          ref4Groups (m + 1) x2.2 = some x3 →
          ∀ c ∈ x1.1 ++ x2.1 :: x3, cls3 c = true := by
        intro k x1 x2 x3 h1 hc1 hr c hc
        rcases List.mem_append.mp hc with hc | hc
        · exact isDigit_cls3 c ((takeDigitsN_sound k s _ _ h1).2.1 c hc)
        · rcases List.mem_cons.mp hc with rfl | hc
          · exact sepDot_cls3 _ (classChar_sound sepDot _ _ _ hc1).1
          · exact ih (m + 1) (by omega) x2.2 x3 hr c hc
      cases hA : (do
          let x ← takeDigitsN 3 s
          let y ← classChar sepDot x.2
          let rest ← ref4Groups (m + 1) y.2
          pure (x.1 ++ y.1 :: rest) : Option Str) with
      | some out =>
        rw [hA] at h
        simp only [Option.some.injEq] at h
        subst h
        simp only [bind, Option.bind_eq_some, Option.pure_def,
          Option.some.injEq] at hA
        obtain ⟨x1, h1, x2, hc1, x3, hr, hcap⟩ := hA
        subst hcap
        exact step 3 x1 x2 x3 h1 hc1 hr
      | none =>
        rw [hA] at h
        simp only [bind, Option.bind_eq_some, Option.pure_def,
          Option.some.injEq] at h
        obtain ⟨x1, h1, x2, hc1, x3, hr, hcap⟩ := h
        subst hcap
        exact step 2 x1 x2 x3 h1 hc1 hr

theorem mem_dropWhile (p : Char → Bool) (s : Str) (c : Char)
    (h : c ∈ s.dropWhile p) : c ∈ s := by
  induction s with
  | nil => simp at h
  | cons a t ih =>
    rw [List.dropWhile_cons] at h
    by_cases hp : p a
    · rw [if_pos hp] at h
      exact List.mem_cons_of_mem a (ih h)
    · rw [if_neg hp] at h
      exact h

theorem mem_jsTrim (s : Str) (c : Char) (h : c ∈ jsTrim s) : c ∈ s := by
  simp only [jsTrim] at h
  rw [List.mem_reverse] at h
  have h2 := mem_dropWhile _ _ _ h
  rw [List.mem_reverse] at h2
  exact mem_dropWhile _ _ _ h2

theorem cleanWsDots_digits (s : Str) (hs : ∀ c ∈ s, cls3 c = true) :
    ∀ c ∈ cleanWsDots s, c.isDigit = true := by
  intro c hc
  rw [cleanWsDots, List.mem_filter] at hc
  obtain ⟨hmem, hkeep⟩ := hc
  have h3 := hs c hmem
  simp only [Bool.not_eq_true', Bool.or_eq_false_iff, beq_eq_false_iff_ne] at hkeep
  simp only [cls3, Bool.or_eq_true] at h3
  rcases h3 with (h | h) | h
  · exact h
  · simp [hkeep.1] at h
  · exact absurd (by simpa using h) hkeep.2

theorem ref2At_sound (pr : Option Char) (s cap : Str)
    (h : ref2At pr s = some cap) :
    cap.length = 15 ∧ ∀ c ∈ cap, c.isDigit = true := by
  rw [ref2At] at h
  by_cases hb : atBoundary pr
  · rw [if_pos hb] at h
    cases hm : takeDigitsN 15 s with
    | none => rw [hm] at h; simp at h
    | some pr2 =>
      obtain ⟨d, r⟩ := pr2
      rw [hm] at h
      dsimp only at h
      by_cases hba : boundaryAfter r
      · rw [if_pos hba] at h
        simp only [Option.some.injEq] at h
        subst h
        exact ⟨(takeDigitsN_sound 15 s _ _ hm).1, (takeDigitsN_sound 15 s _ _ hm).2.1⟩
      · rw [if_neg hba] at h
        simp at h
  · rw [if_neg hb] at h
    simp at h

theorem ref3Run_sound (s cap : Str) (h : ref3Run s = some cap) :
    ∀ c ∈ cap, cls3 c = true := by
  rw [ref3Run] at h
  by_cases hl : 15 ≤ ((s.takeWhile cls3).take 25).length
  · rw [if_pos hl] at h
    simp only [Option.some.injEq] at h
    subst h
    intro c hc
    exact List.mem_takeWhile_imp (List.mem_of_mem_take hc)
  · rw [if_neg hl] at h
    simp at h

theorem ref3At_sound (s cap : Str) (h : ref3At s = some cap) :
    ∀ c ∈ cap, cls3 c = true := by
  simp only [ref3At, bind, Option.bind_eq_some] at h
  obtain ⟨r1, h1, x2, hc2, r3, h3, r4, h4, r5, h5, r6, h6, r7, h7, hcap⟩ := h
  exact scanA_sound ref3Run ref3Run_sound r7 cap hcap

theorem ref5Tail_sound (s cap : Str) (h : ref5Tail s = some cap) :
    ∀ c ∈ cap, c.isDigit = true := by
  simp only [ref5Tail, bind, Option.bind_eq_some, Option.pure_def,
    Option.some.injEq] at h
  obtain ⟨r1, h1, r2, h2, x3, h3, r4, h4, x5, h5, r6, h6, x7, h7, r8, h8,
    x9, h9, r10, h10, x11, h11, hcap⟩ := h
  subst hcap
  exact (takeDigitsN_sound 11 r8 _ _ h9).2.1

theorem ref5At_sound (s cap : Str)
    (h : (do
      let r1 ← litCI (("linha").data) s
      let r2 ← wsPlus r1
      let (_, r3) ← classChar (fun c => jsLower c == 'ó' || jsLower c == 'o') r2
      let r4 ← litCI (("ptica").data) r3
      scanA ref5Tail r4) = some cap) :
    ∀ c ∈ cap, c.isDigit = true := by
  simp only [bind, Option.bind_eq_some] at h
  obtain ⟨r1, h1, r2, h2, x3, h3, r4, h4, hcap⟩ := h
  exact scanA_sound ref5Tail ref5Tail_sound r4 cap hcap

theorem ref6At_sound (s cap : Str) (h : ref6At s = some cap) :
    ∀ c ∈ cap, c.isDigit = true := by
  simp only [ref6At, bind, Option.bind_eq_some, Option.pure_def,
    Option.some.injEq] at h
  obtain ⟨r1, h1, r3, h3, r5, h5, r7, h7, x9, h9, x11, h11, hcap⟩ := h
  subst hcap
  exact (takeDigitsN_sound 11 _ _ _ h9).2.1

theorem jsPadStart_digits (s : Str) (n : Nat)
    (hs : ∀ c ∈ s, c.isDigit = true) :
    ∀ c ∈ jsPadStart s n '0', c.isDigit = true := by
  intro c hc
  rcases List.mem_append.mp hc with hc | hc
  · rw [List.eq_of_mem_replicate hc]
    decide
  · exact hs c hc

theorem rawPaymentReference_digits (text : Str) :
    ∀ c ∈ rawPaymentReference text, c.isDigit = true := by
  rw [rawPaymentReference]
  cases h1 : referenceMatch1 text with
  | some cap =>
    intro c hc
    have hcap : ∀ x ∈ cap, cls3 x = true :=
      scanA_sound ref1At ref1At_sound text cap h1
    exact cleanWsDots_digits cap hcap c (mem_jsTrim _ c hc)
  | none =>
    cases h2 : referenceMatch2 text with
    | some cap =>
      intro c hc
      have : ∀ pr s a, ref2At pr s = some a → ∀ x ∈ a, x.isDigit = true :=
        fun pr s a hps => (ref2At_sound pr s a hps).2
      exact scanB_sound ref2At this text none cap h2 c hc
    | none =>
      cases h3 : referenceMatch3 text with
      | some cap =>
        intro c hc
        have hmem := mem_jsTrim _ c hc
        exact (List.mem_filter.mp hmem).2
      | none =>
        cases h4 : referenceMatch4 text with
        | some cap =>
          intro c hc
          have hcap : ∀ x ∈ cap, cls3 x = true :=
            scanA_sound (ref4Groups 5) (ref4Groups_sound 5) text cap h4
          exact cleanWsDots_digits cap hcap c (mem_jsTrim _ c hc)
        | none =>
          cases h5 : linhaOpticaMatch text with
          | some cap =>
            have hcap : ∀ x ∈ cap, x.isDigit = true :=
              scanA_sound _ ref5At_sound text cap h5
            exact jsPadStart_digits cap 15 hcap
          | none =>
            cases h6 : ivaReferenceMatch text with
            | some cap =>
              have hcap : ∀ x ∈ cap, x.isDigit = true :=
                scanA_sound ref6At ref6At_sound text cap h6
              exact jsPadStart_digits cap 15 hcap
            | none => simp

/-- Claim C4: for every input text the extracted payment reference is
either empty or a string of exactly 15 decimal digits; a candidate that
does not normalize to exactly 15 digits is discarded by the length
guard. -/
theorem c4_reference_15_digits_or_empty (text : Str) :
    extractPaymentReference text = [] ∨
      ((extractPaymentReference text).length = 15 ∧
        ∀ c ∈ extractPaymentReference text, c.isDigit = true) := by
  have hdig := rawPaymentReference_digits text
  simp only [extractPaymentReference]
  cases hb : (rawPaymentReference text).isEmpty with
  | true =>
    left
    have hnil : rawPaymentReference text = [] := by
      cases hr : rawPaymentReference text with
      | nil => rfl
      | cons a l => rw [hr] at hb; simp at hb
    split <;> simp [hnil]
  | false =>
    cases h15 : ((rawPaymentReference text).length != 15) with
    | true =>
      rw [if_pos (by simp [hb, h15])]
      exact Or.inl rfl
    | false =>
      rw [if_neg (by simp [hb, h15])]
      right
      refine ⟨?_, hdig⟩
      by_contra hne
      have hbn : ((rawPaymentReference text).length != 15) = true :=
        bne_iff_ne.mpr hne
      rw [h15] at hbn
      simp at hbn

theorem take_append_le (a b : Str) (n : Nat) (h : n ≤ a.length) :
    (a ++ b).take n = a.take n := by
  induction a generalizing n with
  | nil =>
    simp only [List.length_nil, Nat.le_zero] at h
    subst h
    simp
  | cons x t ih =>
    cases n with
    | zero => simp
    | succ m =>
      simp only [List.cons_append, List.take_succ_cons]
      rw [ih m (by simpa using h)]

theorem take_of_le_takeWhile (p : Char → Bool) (s : Str) (n : Nat)
    (h : n ≤ (s.takeWhile p).length) : s.take n = (s.takeWhile p).take n := by
  conv_lhs => rw [← List.takeWhile_append_dropWhile (p := p) (l := s)]
  exact take_append_le _ _ n h

theorem amtEuroThen_sound (s cap : Str) (h : amtEuroThen s = some cap) :
    ∀ c ∈ cap, amtClass c = true := by
  simp only [amtEuroThen, bind, Option.bind_eq_some] at h
  obtain ⟨r1, h1, hcap⟩ := h
  by_cases he : ((skipWs r1).takeWhile amtClass).isEmpty = true
  · rw [if_pos he] at hcap
    simp at hcap
  · rw [if_neg he] at hcap
    simp only [Option.some.injEq] at hcap
    subst hcap
    exact fun c hc => List.mem_takeWhile_imp hc

theorem amt1At_sound (s cap : Str) (h : amt1At s = some cap) :
    ∀ c ∈ cap, amtClass c = true := by
  simp only [amt1At, bind, Option.bind_eq_some] at h
  obtain ⟨r1, h1, r2, h2, hcap⟩ := h
  by_cases he : (r2.takeWhile amtClass).isEmpty = true
  · rw [if_pos he] at hcap
    simp at hcap
  · rw [if_neg he] at hcap
    simp only [Option.some.injEq] at hcap
    subst hcap
    exact fun c hc => List.mem_takeWhile_imp hc

theorem amt2At_sound (s cap : Str) (h : amt2At s = some cap) :
    ∀ c ∈ cap, amtClass c = true := by
  simp only [amt2At, bind, Option.bind_eq_some] at h
  obtain ⟨r1, h1, hcap⟩ := h
  exact scanA_sound amtEuroThen amtEuroThen_sound r1 cap hcap

theorem amt7At_sound (s cap : Str) (h : amt7At s = some cap) :
    ∀ c ∈ cap, amtClass c = true := by
  simp only [amt7At, bind, Option.bind_eq_some] at h
  obtain ⟨r1, h1, x2, h2, r3, h3, r4, h4, r5, h5, r6, h6, r7, h7, r8, h8, hcap⟩ := h
  by_cases he : (r8.takeWhile amtClass).isEmpty = true
  · rw [if_pos he] at hcap
    simp at hcap
  · rw [if_neg he] at hcap
    simp only [Option.some.injEq] at hcap
    subst hcap
    exact fun c hc => List.mem_takeWhile_imp hc

theorem amt5Gap_sound (g : Nat) :
    ∀ s cap, amt5Gap g s = some cap → ∀ c ∈ cap, amtClass c = true := by
  induction g with
  | zero => exact fun s cap h => amtEuroThen_sound s cap h
  | succ g ih =>
    intro s cap h
    simp only [amt5Gap] at h
    cases hA : amtEuroThen (s.drop (g + 1)) with
    | some out =>
      rw [hA] at h
      simp only [Option.some.injEq] at h
      subst h
      exact amtEuroThen_sound _ _ hA
    | none =>
      rw [hA] at h
      exact ih s cap h

theorem amt5At_sound (s cap : Str) (h : amt5At s = some cap) :
    ∀ c ∈ cap, amtClass c = true := by
  simp only [amt5At, bind, Option.bind_eq_some] at h
  obtain ⟨r1, h1, r2, h2, r3, h3, r4, h4, r5, h5, hcap⟩ := h
  exact amt5Gap_sound _ r5 cap hcap

theorem amt6At_sound (s cap : Str) (h : amt6At s = some cap) :
    ∀ c ∈ cap, amtClass c = true := by
  simp only [amt6At, bind, Option.bind_eq_some] at h
  obtain ⟨r1, h1, r2, h2, r3, h3, r4, h4, r5, h5, hcap⟩ := h
  split at hcap
  · next cap2 heq =>
    simp only [Option.some.injEq] at hcap
    subst hcap
    obtain ⟨b, hb, hif⟩ := Option.bind_eq_some.mp heq
    by_cases he : ((skipWs b).takeWhile amtClass).isEmpty = true
    · rw [if_pos he] at hif
      simp at hif
    · rw [if_neg he] at hif
      simp only [Option.some.injEq] at hif
      subst hif
      exact fun c hc => List.mem_takeWhile_imp hc
  · next heq =>
    by_cases he : ((skipWs r5).takeWhile amtClass).isEmpty = true
    · rw [if_pos he] at hcap
      simp at hcap
    · rw [if_neg he] at hcap
      simp only [Option.some.injEq] at hcap
      subst hcap
      exact fun c hc => List.mem_takeWhile_imp hc

theorem amt4At_sound (s cap : Str) (h : amt4At s = some cap) :
    ∀ c ∈ cap, amtClass c = true := by
  simp only [amt4At, bind, Option.bind_eq_some] at h
  obtain ⟨r1, h1, hcap⟩ := h
  split at hcap
  · next cap2 heq =>
    simp only [Option.some.injEq] at hcap
    subst hcap
    obtain ⟨b, hb, hif⟩ := Option.bind_eq_some.mp heq
    by_cases he : ((skipWs b).takeWhile amtClass).isEmpty = true
    · rw [if_pos he] at hif
      simp at hif
    · rw [if_neg he] at hif
      simp only [Option.some.injEq] at hif
      subst hif
      exact fun c hc => List.mem_takeWhile_imp hc
  · next heq =>
    by_cases he : (((if (skipWs r1).head? == some ':' then skipWs (skipWs r1).tail
        else skipWs r1)).takeWhile amtClass).isEmpty = true
    · rw [if_pos he] at hcap
      simp at hcap
    · rw [if_neg he] at hcap
      simp only [Option.some.injEq] at hcap
      subst hcap
      exact fun c hc => List.mem_takeWhile_imp hc

theorem amt8Len_sound (l : Nat) :
    ∀ s cap, l ≤ (s.takeWhile amtClass).length → amt8Len l s = some cap →
      ∀ c ∈ cap, amtClass c = true := by
  induction l with
  | zero =>
    intro s cap h hl
    simp [amt8Len] at hl
  | succ l ih =>
    intro s cap h hl
    simp only [amt8Len] at hl
    by_cases hc : ((skipWs (s.drop (l + 1))).head? == some '€') = true
    · rw [if_pos hc] at hl
      simp only [Option.some.injEq] at hl
      subst hl
      intro c hcm
      rw [take_of_le_takeWhile amtClass s (l + 1) h] at hcm
      exact List.mem_takeWhile_imp (List.mem_of_mem_take hcm)
    · rw [if_neg hc] at hl
      exact ih s cap (by omega) hl

theorem amt8At_sound (s cap : Str) (h : amt8At s = some cap) :
    ∀ c ∈ cap, amtClass c = true :=
  amt8Len_sound _ s cap (Nat.le_refl _) h

theorem extractAmountCapture_sound (text cap : Str)
    (h : extractAmountCapture text = some cap) : ∀ c ∈ cap, amtClass c = true := by
  rw [extractAmountCapture] at h
  cases h1 : scanA amt1At text with
  | some c1 =>
    rw [h1] at h
    simp only [Option.some.injEq] at h
    subst h
    exact scanA_sound amt1At amt1At_sound text _ h1
  | none =>
    rw [h1] at h
    cases h2 : scanA amt2At text with
    | some c2 =>
      rw [h2] at h
      simp only [Option.some.injEq] at h
      subst h
      exact scanA_sound amt2At amt2At_sound text _ h2
    | none =>
      rw [h2] at h
      cases h7 : scanA amt7At text with
      | some c7 =>
        rw [h7] at h
        simp only [Option.some.injEq] at h
        subst h
        exact scanA_sound amt7At amt7At_sound text _ h7
      | none =>
        rw [h7] at h
        cases h5 : scanA amt5At text with
        | some c5 =>
          rw [h5] at h
          simp only [Option.some.injEq] at h
          subst h
          exact scanA_sound amt5At amt5At_sound text _ h5
        | none =>
          rw [h5] at h
          cases h6 : scanA amt6At text with
          | some c6 =>
            rw [h6] at h
            simp only [Option.some.injEq] at h
            subst h
            exact scanA_sound amt6At amt6At_sound text _ h6
          | none =>
            rw [h6] at h
            cases h4 : scanA amt4At text with
            | some c4 =>
              rw [h4] at h
              simp only [Option.some.injEq] at h
              subst h
              exact scanA_sound amt4At amt4At_sound text _ h4
            | none =>
              rw [h4] at h
              cases h8 : scanA amt8At text with
              | some c8 =>
                rw [h8] at h
                simp only [Option.some.injEq] at h
                subst h
                exact scanA_sound amt8At amt8At_sound text _ h8
              | none =>
                rw [h8] at h
                exact scanA_sound amtEuroThen amtEuroThen_sound text cap h

theorem amtClass_cases (c : Char) (h : amtClass c = true) :
    c.isDigit = true ∨ c = '.' ∨ c = ',' := by
  simp only [amtClass, Bool.or_eq_true, beq_iff_eq] at h
  rcases h with (h | h) | h
  exacts [Or.inl h, Or.inr (Or.inl h), Or.inr (Or.inr h)]

theorem amtClass_ne_dash (c : Char) (h : amtClass c = true) : c ≠ '-' := by
  rcases amtClass_cases c h with h | rfl | rfl
  · exact isDigit_ne_dash c h
  · decide
  · decide

theorem amtClass_ne_plus (c : Char) (h : amtClass c = true) : c ≠ '+' := by
  rcases amtClass_cases c h with h | rfl | rfl
  · rintro rfl
    exact absurd h (by decide)
  · decide
  · decide

theorem mem_replaceFirstComma (s : Str) (c : Char)
    (h : c ∈ jsReplaceFirstComma s) : c ∈ s ∨ c = '.' := by
  induction s with
  | nil => simp [jsReplaceFirstComma] at h
  | cons a t ih =>
    simp only [jsReplaceFirstComma] at h
    by_cases ha : (a == ',') = true
    · rw [if_pos ha] at h
      rcases List.mem_cons.mp h with rfl | h
      · exact Or.inr rfl
      · exact Or.inl (List.mem_cons_of_mem a h)
    · rw [if_neg ha] at h
      rcases List.mem_cons.mp h with rfl | h
      · exact Or.inl (List.mem_cons_self _ _)
      · rcases ih h with h | h
        · exact Or.inl (List.mem_cons_of_mem a h)
        · exact Or.inr h

theorem normalizeAmountStr_class (s : Str) (hs : ∀ c ∈ s, amtClass c = true) :
    ∀ c ∈ normalizeAmountStr s, amtClass c = true := by
  intro c hc
  rcases mem_replaceFirstComma _ c hc with h | rfl
  · exact hs c (List.mem_filter.mp h).1
  · decide

theorem parseFloatMag_nonneg (t : Str) (q : ℚ) (h : parseFloatMag t = some q) :
    0 ≤ q := by
  dsimp only [parseFloatMag] at h
  split at h
  · exact absurd h (by simp)
  · have hq := Option.some.inj h
    subst hq
    positivity

theorem jsParseFloat_nonneg (s : Str) (q : ℚ)
    (hs : ∀ c ∈ s, amtClass c = true) (h : jsParseFloat s = some q) : 0 ≤ q := by
  simp only [jsParseFloat] at h
  cases ht : s.dropWhile jsIsWs with
  | nil =>
    rw [ht] at h
    simp only [List.head?_nil] at h
    rw [if_neg (by decide), if_neg (by decide),
      show parseFloatMag [] = none from rfl] at h
    exact Option.noConfusion h
  | cons a t2 =>
    rw [ht] at h
    have hmem : a ∈ s :=
      mem_dropWhile jsIsWs s a (by rw [ht]; exact List.mem_cons_self a t2)
    have ha := hs a hmem
    rw [if_neg ?hn, if_neg ?hp] at h
    case hn =>
      simp only [List.head?_cons]
      simp [amtClass_ne_dash a ha]
    case hp =>
      simp only [List.head?_cons]
      simp [amtClass_ne_plus a ha]
    exact parseFloatMag_nonneg _ _ h

theorem extractAmount_truthy_iff (text : Str) :
    amountTruthy (extractAmount text) = true ↔
      ∃ q, extractAmount text = some q ∧ 0 < q := by
  cases hcap : extractAmountCapture text with
  | none =>
    simp only [extractAmount, hcap, amountTruthy]
    constructor
    · intro h
      simp at h
    · rintro ⟨q, hq, hpos⟩
      simp only [Option.some.injEq] at hq
      subst hq
      exact absurd hpos (lt_irrefl 0)
  | some cap =>
    have hclass := normalizeAmountStr_class cap (extractAmountCapture_sound text cap hcap)
    simp only [extractAmount, hcap]
    cases hpf : jsParseFloat (normalizeAmountStr cap) with
    | none => simp [amountTruthy]
    | some q =>
      have hq0 := jsParseFloat_nonneg _ q hclass hpf
      simp only [amountTruthy]
      constructor
      · intro h
        refine ⟨q, rfl, ?_⟩
        by_cases hz : q = 0
        · rw [if_pos hz] at h
          simp at h
        · exact lt_of_le_of_ne hq0 (Ne.symm hz)
      · rintro ⟨q2, hq2, hpos⟩
        simp only [Option.some.injEq] at hq2
        subst hq2
        rw [if_neg (ne_of_gt hpos)]

theorem isEmpty_false_iff (l : Str) : l.isEmpty = false ↔ l ≠ [] := by
  cases l <;> simp

theorem missing_empty_iff (text : Str) :
    ((if (extractPaymentReference text).isEmpty then [missingLabelRef] else []) ++
      (if !(amountTruthy (extractAmount text)) then [missingLabelAmt] else []) ++
      (if (extractNif text).isEmpty then [missingLabelNif] else [])).isEmpty = true ↔
    ((extractPaymentReference text).isEmpty = false ∧
      amountTruthy (extractAmount text) = true ∧
      (extractNif text).isEmpty = false) := by
  cases h1 : (extractPaymentReference text).isEmpty <;>
    cases h2 : amountTruthy (extractAmount text) <;>
      cases h3 : (extractNif text).isEmpty <;>
        simp [missingLabelRef, missingLabelAmt, missingLabelNif]

theorem parsePdfText_success (text : Str) :
    (parsePdfText text).success = true ↔
      ((extractPaymentReference text).isEmpty = false ∧
        amountTruthy (extractAmount text) = true ∧
        (extractNif text).isEmpty = false) := by
  simp only [parsePdfText]
  by_cases hcond : (((if (extractPaymentReference text).isEmpty then [missingLabelRef] else []) ++
      (if !(amountTruthy (extractAmount text)) then [missingLabelAmt] else []) ++
      (if (extractNif text).isEmpty then [missingLabelNif] else [])).isEmpty = true)
  · rw [if_pos hcond]
    simp only [true_iff]
    exact (missing_empty_iff text).mp hcond
  · rw [if_neg hcond]
    constructor
    · intro h
      exact absurd h (by simp)
    · intro h
      exact absurd ((missing_empty_iff text).mpr h) hcond

theorem parsePdfText_failure (text : Str)
    (h : (parsePdfText text).success = false) :
    (parsePdfText text).needsReview = true ∧
    (parsePdfText text).missingFields ≠ [] ∧
    (parsePdfText text).extractedText = some text := by
  simp only [parsePdfText] at h ⊢
  by_cases hcond : (((if (extractPaymentReference text).isEmpty then [missingLabelRef] else []) ++
      (if !(amountTruthy (extractAmount text)) then [missingLabelAmt] else []) ++
      (if (extractNif text).isEmpty then [missingLabelNif] else [])).isEmpty = true)
  · rw [if_pos hcond] at h
    exact absurd h (by simp)
  · rw [if_neg hcond] at h ⊢
    refine ⟨rfl, ?_, rfl⟩
    intro heq
    apply hcond
    have heq2 : ((if (extractPaymentReference text).isEmpty then [missingLabelRef] else []) ++
        (if !(amountTruthy (extractAmount text)) then [missingLabelAmt] else []) ++
        (if (extractNif text).isEmpty then [missingLabelNif] else [])) = [] := heq
    rw [heq2]
    rfl

/-- Claim C7: the extraction result is success exactly when the NIF and
the 15-digit payment reference are non-empty and the amount parsed to a
strictly positive value; whenever it is not a success it is a
needs-review result carrying a non-empty missing-field list and the raw
extracted text, never a bare failure. -/
theorem c7_success_iff (text : Str) :
    ((parsePdfText text).success = true ↔
      extractNif text ≠ [] ∧ extractPaymentReference text ≠ [] ∧
        ∃ q, extractAmount text = some q ∧ 0 < q) ∧
    ((parsePdfText text).success = false →
      (parsePdfText text).needsReview = true ∧
      (parsePdfText text).missingFields ≠ [] ∧
      (parsePdfText text).extractedText = some text) := by
  refine ⟨?_, parsePdfText_failure text⟩
  rw [parsePdfText_success text]
  constructor
  · rintro ⟨h1, h2, h3⟩
    exact ⟨(isEmpty_false_iff _).mp h3, (isEmpty_false_iff _).mp h1,
      (extractAmount_truthy_iff text).mp h2⟩
  · rintro ⟨hn, hr, hq⟩
    exact ⟨(isEmpty_false_iff _).mpr hr, (extractAmount_truthy_iff text).mpr hq,
      (isEmpty_false_iff _).mpr hn⟩

unseal Rat.mul Rat.add Rat.inv Rat.sub in
/-- Witness for C7 at the empty text: no fields extract, so the result
is a needs-review record retaining the raw text. -/
theorem c7_success_iff_witness :
    (parsePdfText []).needsReview = true ∧
    (parsePdfText []).missingFields ≠ [] ∧
    (parsePdfText []).extractedText = some [] :=
  (c7_success_iff []).2 (by decide)

unseal Rat.mul Rat.add Rat.inv Rat.sub in
/-- Claim C8: the amount normalization maps the captured text 1.234,56
to 1234.56 and 3,00 to 3.00, and whenever no amount parses to a
non-zero value the result lists the amount field as missing and is a
needs-review record, never a success with a wrong amount. -/
theorem c8_amount_normalization (text : Str)
    (h : amountTruthy (extractAmount text) = false) :
    jsParseFloat (normalizeAmountStr (("1.234,56").data)) =
      some ((123456 : ℚ)/100) ∧
    jsParseFloat (normalizeAmountStr (("3,00").data)) = some 3 ∧
    missingLabelAmt ∈ (parsePdfText text).missingFields ∧
    (parsePdfText text).needsReview = true ∧
    (parsePdfText text).success = false := by
  have hMmem : missingLabelAmt ∈
      ((if (extractPaymentReference text).isEmpty then [missingLabelRef] else []) ++
       (if !(amountTruthy (extractAmount text)) then [missingLabelAmt] else []) ++
       (if (extractNif text).isEmpty then [missingLabelNif] else [])) := by
    rw [h]
    simp
  have hMne : ¬(((if (extractPaymentReference text).isEmpty then [missingLabelRef] else []) ++
       (if !(amountTruthy (extractAmount text)) then [missingLabelAmt] else []) ++
       (if (extractNif text).isEmpty then [missingLabelNif] else [])).isEmpty = true) := by
    intro he
    have hnil := List.isEmpty_iff.mp he
    rw [hnil] at hMmem
    simp at hMmem
  refine ⟨by decide, by decide, ?_, ?_, ?_⟩ <;>
    (simp only [parsePdfText]; rw [if_neg hMne])
  exact hMmem

unseal Rat.mul Rat.add Rat.inv Rat.sub in
/-- Witness for C8 at the empty text, where no amount pattern
matches. -/
theorem c8_amount_normalization_witness :
    jsParseFloat (normalizeAmountStr (("1.234,56").data)) =
      some ((123456 : ℚ)/100) ∧
    jsParseFloat (normalizeAmountStr (("3,00").data)) = some 3 ∧
    missingLabelAmt ∈ (parsePdfText []).missingFields ∧
    (parsePdfText []).needsReview = true ∧
    (parsePdfText []).success = false :=
  c8_amount_normalization [] (by decide)

/-- Claim C9: a text containing NIF: 123456789 extracts the NIF
123456789, and a text whose only digits are the 11-digit run
12345678901 extracts no NIF at all. -/
theorem c9_nif_extraction :
    extractNif (("NIF: 123456789").data) = ("123456789").data ∧
    extractNif (("12345678901").data) = [] := by
  decide

/-- Claim C10: the extracted entity is always the first three characters
of the final payment reference, and is empty whenever the payment
reference is empty. -/
theorem c10_entity_derived (text : Str) :
    (parsePdfText text).data.entity =
      (parsePdfText text).data.paymentReference.take 3 ∧
    ((parsePdfText text).data.paymentReference = [] →
      (parsePdfText text).data.entity = []) := by
  simp only [parsePdfText]
  by_cases hcond : (((if (extractPaymentReference text).isEmpty then [missingLabelRef] else []) ++
      (if !(amountTruthy (extractAmount text)) then [missingLabelAmt] else []) ++
      (if (extractNif text).isEmpty then [missingLabelNif] else [])).isEmpty = true)
  · rw [if_pos hcond]
    exact ⟨rfl, fun h => by
      have h2 : extractPaymentReference text = [] := h
      show (extractPaymentReference text).take 3 = []
      rw [h2, List.take_nil]⟩
  · rw [if_neg hcond]
    exact ⟨rfl, fun h => by
      have h2 : extractPaymentReference text = [] := h
      show (extractPaymentReference text).take 3 = []
      rw [h2, List.take_nil]⟩

unseal Rat.mul Rat.add Rat.inv Rat.sub in
/-- Witness for C10 at the empty text. -/
theorem c10_entity_derived_witness : (parsePdfText []).data.entity = [] :=
  (c10_entity_derived []).2 (by decide)
